import Mathlib

/-!
Verification of the message-composition core of the Trojita e-mail client
(`src/Imap/Model/MessageComposer.cpp`), shallowly embedded in Lean.

Byte streams (`QByteArray` contents, data written to a `QIODevice`) are
modelled as `List Nat`, one entry per byte.  `QString` values are likewise
modelled as opaque byte sequences.  External collaborators
(`Imap::Message::MailAddress`, the encoders from `Imap/Encoders.h`, the
attachment items from `Composer/ComposerAttachments.h` and the mailbox
model) are modelled as records of uninterpreted functions, since only
their interface contracts matter for these properties.
-/

namespace Trojita

/-- A byte string (`QByteArray` / data written to a `QIODevice`). -/
abbrev Bytes := List Nat

/-- Convert an ASCII string literal into its byte representation. -/
def bs (s : String) : Bytes := s.data.map Char.toNat

/-- The CRLF line terminator. -/
def crlf : Bytes := [13, 10]

/-! ## Splitting a byte stream into CRLF-terminated lines -/

/-- Split a byte stream at every CRLF pair.  The result always contains at
least one (possibly empty) line; a trailing CRLF yields a final empty line. -/
def splitCRLF : Bytes → List Bytes
  | [] => [[]]
  | [x] => [[x]]
  | x :: y :: rest =>
    if x = 13 ∧ y = 10 then [] :: splitCRLF rest
    else
      match splitCRLF (y :: rest) with
      | [] => [[x]]
      | line :: more => (x :: line) :: more

theorem splitCRLF_ne_nil (l : Bytes) : splitCRLF l ≠ [] := by
  induction l using splitCRLF.induct <;> simp_all [splitCRLF] <;> split <;> simp

/-- Chopping off a CR-free chunk followed by CRLF produces exactly one line. -/
theorem splitCRLF_chunk (c : Bytes) (hc : ∀ x ∈ c, x ≠ 13) (r : Bytes) :
    splitCRLF (c ++ 13 :: 10 :: r) = c :: splitCRLF r := by
  induction c with
  | nil => simp [splitCRLF]
  | cons x xs ih =>
    have hx : x ≠ 13 := hc x (by simp)
    have ih' := ih (fun y hy => hc y (by simp [hy]))
    cases xs with
    | nil =>
      rw [List.nil_append] at ih'
      simpa [splitCRLF, hx] using ih'
    | cons x' xs' =>
      rw [List.cons_append, List.cons_append, splitCRLF]
      rw [List.cons_append] at ih'
      simp only [hx, false_and, if_false, ih']

/-- A CRLF-free byte stream is a single line. -/
theorem splitCRLF_noCRLF (c : Bytes) (hc : ∀ x ∈ c, x ≠ 13) :
    splitCRLF c = [c] := by
  induction c with
  | nil => rfl
  | cons x xs ih =>
    have hx : x ≠ 13 := hc x (by simp)
    have ih' : splitCRLF xs = [xs] := ih (fun y hy => hc y (by simp [hy]))
    cases xs with
    | nil => rfl
    | cons x' xs' => simp only [splitCRLF, hx, false_and, if_false, ih']

/-! ## Base64 encoding (`QByteArray::toBase64`) -/

/-- One character of the Base64 alphabet, as its ASCII code. -/
def sextet (n : Nat) : Nat :=
  if n < 26 then 65 + n
  else if n < 52 then 97 + (n - 26)
  else if n < 62 then 48 + (n - 52)
  else if n = 62 then 43
  else 47

theorem sextet_ge (n : Nat) : 43 ≤ sextet n := by
  unfold sextet
  split <;> [omega; (split <;> [omega; (split <;> [omega; (split <;> omega)])])]

/-- Standard Base64 encoding of a byte sequence, with `=` padding, as
produced by `QByteArray::toBase64`. -/
def base64Encode : Bytes → Bytes
  | [] => []
  | [a] => [sextet (a % 256 / 4), sextet (a % 256 % 4 * 16), 61, 61]
  | [a, b] => [sextet (a % 256 / 4), sextet (a % 256 % 4 * 16 + b % 256 / 16),
               sextet (b % 256 % 16 * 4), 61]
  | a :: b :: c :: rest =>
    sextet (a % 256 / 4) :: sextet (a % 256 % 4 * 16 + b % 256 / 16) ::
    sextet (b % 256 % 16 * 4 + c % 256 / 64) :: sextet (c % 256 % 64) ::
    base64Encode rest

theorem base64Encode_length (l : Bytes) :
    (base64Encode l).length = 4 * ((l.length + 2) / 3) := by
  induction l using base64Encode.induct <;> simp_all [base64Encode] <;> omega

theorem base64Encode_no13 (l : Bytes) : ∀ x ∈ base64Encode l, x ≠ 13 := by
  have hs : ∀ n, sextet n ≠ 13 := fun n => by have := sextet_ge n; omega
  induction l using base64Encode.induct <;>
    simp_all [base64Encode] <;> omega

/-! ## `MessageComposer::writeAttachmentBody`, Base64 branch

The source loop reads the attachment data in chunks of `76*6/8 = 57` bytes,
Base64-encodes each chunk and writes it followed by CRLF.  The loop body
never runs when the data source is already at its end.  We mirror the loop
with an explicit fuel argument (one unit of fuel per iteration; the data
shrinks by at least one byte per iteration, so `data.length` units of fuel
always suffice). -/

def base64LinesFuel : Nat → Bytes → Bytes
  | _, [] => []
  | 0, _ => []
  | fuel + 1, data =>
    base64Encode (data.take 57) ++ crlf ++ base64LinesFuel fuel (data.drop 57)

/-- The bytes written by the Base64 branch of `writeAttachmentBody`. -/
def base64Lines (data : Bytes) : Bytes := base64LinesFuel data.length data

/-- The 57-byte chunks in which the source loop consumes the data. -/
def chunksOf57Fuel : Nat → Bytes → List Bytes
  | _, [] => []
  | 0, _ => []
  | fuel + 1, data => data.take 57 :: chunksOf57Fuel fuel (data.drop 57)

def chunksOf57 (data : Bytes) : List Bytes := chunksOf57Fuel data.length data

/-- Every chunk the loop consumes has at most 57 bytes. -/
theorem chunksOf57Fuel_short (fuel : Nat) (data : Bytes) :
    ∀ ch ∈ chunksOf57Fuel fuel data, ch.length ≤ 57 := by
  induction fuel generalizing data with
  | zero => cases data <;> simp [chunksOf57Fuel]
  | succ n ih =>
    cases data with
    | nil => simp [chunksOf57Fuel]
    | cons x xs =>
      have hstep : chunksOf57Fuel (n + 1) (x :: xs)
          = (x :: xs).take 57 :: chunksOf57Fuel n ((x :: xs).drop 57) := rfl
      rw [hstep]
      intro ch hch
      rcases List.mem_cons.mp hch with h | h
      · subst h; simp [List.length_take]
      · exact ih (List.drop 57 (x :: xs)) ch h

theorem chunksOf57_short (data : Bytes) : ∀ ch ∈ chunksOf57 data, ch.length ≤ 57 :=
  chunksOf57Fuel_short data.length data

/-- The Base64 body output is exactly the concatenation of the encoded
57-byte chunks, each terminated by CRLF. -/
theorem base64LinesFuel_eq_chunks (fuel : Nat) (data : Bytes) :
    base64LinesFuel fuel data
      = ((chunksOf57Fuel fuel data).map (fun ch => base64Encode ch ++ crlf)).flatten := by
  induction fuel generalizing data with
  | zero => cases data <;> rfl
  | succ n ih =>
    cases data with
    | nil => rfl
    | cons x xs =>
      have hstep1 : base64LinesFuel (n + 1) (x :: xs)
          = base64Encode ((x :: xs).take 57) ++ crlf
            ++ base64LinesFuel n ((x :: xs).drop 57) := rfl
      have hstep2 : chunksOf57Fuel (n + 1) (x :: xs)
          = (x :: xs).take 57 :: chunksOf57Fuel n ((x :: xs).drop 57) := rfl
      rw [hstep1, hstep2, List.map_cons, List.flatten_cons,
          ih (List.drop 57 (x :: xs)), List.append_assoc]

theorem base64Lines_eq_chunks (data : Bytes) :
    base64Lines data
      = ((chunksOf57 data).map (fun ch => base64Encode ch ++ crlf)).flatten :=
  base64LinesFuel_eq_chunks data.length data

/-- Every line of the Base64 body output (split at CRLF) is at most 76
characters long. -/
theorem base64LinesFuel_lineLength (fuel : Nat) (data : Bytes) :
    ∀ line ∈ splitCRLF (base64LinesFuel fuel data), line.length ≤ 76 := by
  induction fuel generalizing data with
  | zero => cases data <;> simp [base64LinesFuel, splitCRLF]
  | succ n ih =>
    cases data with
    | nil => simp [base64LinesFuel, splitCRLF]
    | cons x xs =>
      have hstep : base64LinesFuel (n + 1) (x :: xs)
          = base64Encode ((x :: xs).take 57) ++ crlf
            ++ base64LinesFuel n ((x :: xs).drop 57) := rfl
      rw [hstep]
      have hsplit :
          splitCRLF (base64Encode (List.take 57 (x :: xs)) ++ crlf ++
              base64LinesFuel n (List.drop 57 (x :: xs)))
            = base64Encode (List.take 57 (x :: xs)) ::
              splitCRLF (base64LinesFuel n (List.drop 57 (x :: xs))) := by
        rw [List.append_assoc]
        exact splitCRLF_chunk _ (base64Encode_no13 _) _
      rw [hsplit]
      intro line hline
      rcases List.mem_cons.mp hline with h | h
      · subst h
        have h57 : (List.take 57 (x :: xs)).length ≤ 57 := by simp [List.length_take]
        rw [base64Encode_length]
        omega
      · exact ih (List.drop 57 (x :: xs)) line h

theorem base64Lines_lineLength (data : Bytes) :
    ∀ line ∈ splitCRLF (base64Lines data), line.length ≤ 76 :=
  base64LinesFuel_lineLength data.length data

/-! ## `MessageComposer::writeHeaderWithMsgIds`

The source writes `headerName + ":"`, then appends each message-id as
`" <id>"`, inserting a CRLF before an item whenever the running character
count would exceed `78 - 3` columns (the three bytes being eaten by
`space < >`); the very first item is never preceded by a wrap.  A final
CRLF terminates the header. -/

/-- The loop of `writeHeaderWithMsgIds` for items `i ≥ 1`, carrying the
running `charCount`. -/
def msgIdsRest : List Bytes → Nat → Bytes
  | [], _ => []
  | msgid :: rest, charCount =>
    if charCount ≠ 0 ∧ charCount + msgid.length > 75 then
      crlf ++ bs " <" ++ msgid ++ bs ">" ++ msgIdsRest rest (msgid.length + 3)
    else
      bs " <" ++ msgid ++ bs ">" ++ msgIdsRest rest (charCount + msgid.length + 3)

/-- `MessageComposer::writeHeaderWithMsgIds`: the bytes written for a
message-id list header.  Empty lists produce no output at all. -/
def writeHeaderWithMsgIds (headerName : Bytes) (messageIds : List Bytes) : Bytes :=
  match messageIds with
  | [] => []
  | msgid0 :: rest =>
    headerName ++ bs ":" ++ bs " <" ++ msgid0 ++ bs ">"
      ++ msgIdsRest rest (headerName.length + 1 + (msgid0.length + 3))
      ++ crlf

theorem msgIdsRest_lines (ids : List Bytes) :
    ∀ (cc : Nat) (cur : Bytes),
      cur.length = cc → (∀ x ∈ cur, x ≠ 13) → cc ≤ 78 →
      (∀ msgid ∈ ids, msgid.length ≤ 75 ∧ ∀ x ∈ msgid, x ≠ 13) →
      ∀ line ∈ splitCRLF (cur ++ msgIdsRest ids cc ++ crlf), line.length ≤ 78 := by
  induction ids with
  | nil =>
    intro cc cur hlen hno13 hcc _
    rw [msgIdsRest]
    intro line hline
    rw [List.append_nil] at hline
    have : splitCRLF (cur ++ crlf) = [cur, []] := by
      have := splitCRLF_chunk cur hno13 []
      simpa [crlf] using this
    rw [this] at hline
    simp only [List.mem_cons, List.mem_singleton, List.not_mem_nil, or_false] at hline
    rcases hline with h | h <;> subst h <;> simp <;> omega
  | cons msgid rest ih =>
    intro cc cur hlen hno13 hcc hids
    have hmsg := hids msgid (by simp)
    have hrest : ∀ m ∈ rest, m.length ≤ 75 ∧ ∀ x ∈ m, x ≠ 13 :=
      fun m hm => hids m (by simp [hm])
    have hsl : bs " <" = [32, 60] := rfl
    have hgt : bs ">" = [62] := rfl
    have hitem13 : ∀ x ∈ bs " <" ++ msgid ++ bs ">", x ≠ 13 := by
      intro x hx
      rcases List.mem_append.mp hx with h | h
      · rcases List.mem_append.mp h with h | h
        · rw [hsl] at h
          simp only [List.mem_cons, List.mem_singleton, List.not_mem_nil, or_false] at h
          omega
        · exact hmsg.2 x h
      · rw [hgt] at h
        simp only [List.mem_singleton] at h
        omega
    rw [msgIdsRest]
    split
    · -- wrap before this item
      rename_i hwrap
      intro line hline
      have hassoc :
          cur ++ (crlf ++ bs " <" ++ msgid ++ bs ">"
              ++ msgIdsRest rest (msgid.length + 3)) ++ crlf
            = cur ++ 13 :: 10 :: ((bs " <" ++ msgid ++ bs ">")
              ++ msgIdsRest rest (msgid.length + 3) ++ crlf) := by
        simp [crlf, List.append_assoc]
      rw [hassoc, splitCRLF_chunk cur hno13] at hline
      rcases List.mem_cons.mp hline with h | h
      · subst h; omega
      · refine ih (msgid.length + 3) (bs " <" ++ msgid ++ bs ">") ?_ hitem13 ?_ hrest line h
        · have h2 : (bs " <").length = 2 := rfl
          have h1 : (bs ">").length = 1 := rfl
          simp only [List.length_append, h2, h1]
          omega
        · omega
    · -- continue the current line
      rename_i hnowrap
      intro line hline
      have hassoc :
          cur ++ (bs " <" ++ msgid ++ bs ">"
              ++ msgIdsRest rest (cc + msgid.length + 3)) ++ crlf
            = (cur ++ (bs " <" ++ msgid ++ bs ">"))
              ++ msgIdsRest rest (cc + msgid.length + 3) ++ crlf := by
        simp [List.append_assoc]
      rw [hassoc] at hline
      have hcur13 : ∀ x ∈ cur ++ (bs " <" ++ msgid ++ bs ">"), x ≠ 13 := by
        intro x hx
        rcases List.mem_append.mp hx with hx' | hx'
        · exact hno13 x hx'
        · exact hitem13 x hx'
      have hcc' : cc + msgid.length + 3 ≤ 78 := by
        rcases Decidable.not_and_iff_or_not.mp hnowrap with h | h
        · have : cc = 0 := by omega
          omega
        · omega
      refine ih (cc + msgid.length + 3) (cur ++ (bs " <" ++ msgid ++ bs ">")) ?_ hcur13 hcc' hrest line hline
      have h2 : (bs " <").length = 2 := rfl
      have h1 : (bs ">").length = 1 := rfl
      simp only [List.length_append, h2, h1]
      omega

/-! ## The composer data model -/

/-- `Composer::RecipientKind`. -/
inductive RecipientKind
  | addressTo
  | addressCc
  | addressBcc
  | addressFrom
  | addressSender
  | addressReplyTo
deriving DecidableEq

/-- `Imap::Message::MailAddress`, an external collaborator: only the
renderings used by the composer are modelled. -/
structure MailAddress where
  asMailHeader : Bytes
  asSMTPMailbox : Bytes
  host : Bytes
deriving DecidableEq

/-- `AttachmentItem::ContentTransferEncoding`. -/
inductive ContentTransferEncoding
  | base64
  | sevenBit
  | eightBit
  | binary
  | quotedPrintable
deriving DecidableEq

/-- `Composer::ContentDisposition`. -/
inductive ContentDisposition
  | cdnInline
  | cdnAttachment
deriving DecidableEq

/-- Modelled from the spec: an attachment item
(`Composer/ComposerAttachments.h`, not part of the reviewed sources) is an
external collaborator; only the interface the composer calls is modelled,
as a record of its observable answers. `rawData` is `none` when the byte
source has vanished (`rawData()` returning a null pointer); `imapUrl` is
empty when no server-side byte range can be referenced. -/
structure AttachmentItem where
  isAvailableLocally : Bool
  mimeType : Bytes
  contentDispositionHeader : Bytes
  suggestedCTE : ContentTransferEncoding
  rawData : Option Bytes
  imapUrl : Bytes
  caption : Bytes
  contentDispositionMode : ContentDisposition
deriving DecidableEq

/-- Modelled from the spec: the live mailbox model
(`Imap::Mailbox::Model`) and the attachment constructors.  `mailboxExists`
models `Model::findMailboxByName` returning non-null; `messageExists`
models whether constructing a remote-backed attachment succeeds (its
constructor raises "unknown message index" exactly when the referenced
message is no longer present); the remaining fields give the constructed
items themselves. -/
structure ImapModel where
  mailboxExists : Bytes → Bool
  messageExists : Bytes → Nat → Nat → Bool
  msgItem : Bytes → Nat → Nat → AttachmentItem
  partItem : Bytes → Nat → Nat → Bytes → AttachmentItem
  fileItem : Bytes → AttachmentItem

/-- Construction of an `ImapMessageAttachmentItem`; `none` models the
`Imap::UnknownMessageIndex` exception escaping the constructor. -/
def mkImapMessageAttachment (m : ImapModel) (mailbox : Bytes) (uidValidity uid : Nat) :
    Option AttachmentItem :=
  if m.messageExists mailbox uidValidity uid then
    some (m.msgItem mailbox uidValidity uid)
  else none

/-- Construction of an `ImapPartAttachmentItem`; `none` models the
`Imap::UnknownMessageIndex` exception escaping the constructor. -/
def mkImapPartAttachment (m : ImapModel) (mailbox : Bytes) (uidValidity uid : Nat)
    (trojitaPath : Bytes) : Option AttachmentItem :=
  if m.messageExists mailbox uidValidity uid then
    some (m.partItem mailbox uidValidity uid trojitaPath)
  else none

/-- The external encoders used by the composer (`Imap/Encoders.h`,
`Imap/Model/Utils.h`, `Common/Application.h`; not part of the reviewed
sources), left uninterpreted. -/
structure Env where
  encodeHeaderField : Bytes → Bytes
  dateTimeToRfc2822 : Bytes → Bytes
  userAgentVersioned : Bytes
  quotedPrintableEncode : Bytes → Bytes
  wrapFormatFlowed : Bytes → Bytes

/-- `Composer::MessageComposer`'s state.  `m_messageId` and
`m_mimeBoundary` are `none` while the corresponding `QByteArray` is still
null (not yet generated). -/
structure MessageComposer where
  m_from : MailAddress
  m_recipients : List (RecipientKind × MailAddress)
  m_subject : Bytes
  m_organization : Bytes
  m_inReplyTo : List Bytes
  m_references : List Bytes
  m_timestamp : Bytes
  m_text : Bytes
  m_attachments : List AttachmentItem
  m_messageId : Option Bytes
  m_mimeBoundary : Option Bytes
  m_shouldPreload : Bool
  m_reportTrojitaVersions : Bool
  m_model : ImapModel

/-- A null `QByteArray` renders as the empty byte string. -/
def optBytes : Option Bytes → Bytes
  | none => []
  | some b => b

/-- `QUuid::createUuid().toByteArray().replace("{", "").replace("}", "")`:
strip every brace byte from the fresh uuid token. -/
def stripBraces (l : Bytes) : Bytes := l.filter (fun b => b ≠ 123 ∧ b ≠ 125)

/-- `MessageComposer::ensureRandomStrings`: generate the message-id and the
MIME boundary on first use only.  The fresh uuid tokens consumed by
`QUuid::createUuid()` are passed explicitly as `uuid1`/`uuid2`. -/
def mkMessageId (uuid1 : Bytes) (host : Bytes) : Bytes :=
  stripBraces uuid1 ++ bs "@" ++ (if host.isEmpty then bs "localhost" else host)

def ensureRandomStrings (c : MessageComposer) (uuid1 uuid2 : Bytes) : MessageComposer :=
  let c1 :=
    match c.m_messageId with
    | none => { c with m_messageId := some (mkMessageId uuid1 c.m_from.host) }
    | some _ => c
  match c1.m_mimeBoundary with
  | none => { c1 with m_mimeBoundary := some (bs "trojita=_" ++ stripBraces uuid2) }
  | some _ => c1

/-- Grouping of the recipient list into the `To:` and `Cc:` address lists;
Bcc recipients (and the kinds the composer never produces) are skipped. -/
def groupRecipients : List (RecipientKind × MailAddress) → List Bytes × List Bytes
  | [] => ([], [])
  | (k, a) :: rest =>
    let (rcptTo, rcptCc) := groupRecipients rest
    match k with
    | RecipientKind.addressTo => (a.asMailHeader :: rcptTo, rcptCc)
    | RecipientKind.addressCc => (rcptTo, a.asMailHeader :: rcptCc)
    | _ => (rcptTo, rcptCc)

/-- The address join of `processListOfRecipientsIntoHeader`: every address
but the last is followed by `",\r\n "`, the last by CRLF. -/
def joinAddresses : List Bytes → Bytes
  | [] => []
  | [a] => a ++ crlf
  | a :: rest => a ++ bs "," ++ crlf ++ bs " " ++ joinAddresses rest

/-- `processListOfRecipientsIntoHeader`: nothing for an empty address list,
otherwise the one-line-per-address rendering with the given leading label. -/
def processListOfRecipientsIntoHeader (label : Bytes) (addresses : List Bytes) : Bytes :=
  match addresses with
  | [] => []
  | _ => label ++ joinAddresses addresses

/-- The recipient block of the common header: one `To:` and one `Cc:` line
group. -/
def recipientHeaders (rs : List (RecipientKind × MailAddress)) : Bytes :=
  let (rcptTo, rcptCc) := groupRecipients rs
  processListOfRecipientsIntoHeader (bs "To: ") rcptTo
    ++ processListOfRecipientsIntoHeader (bs "Cc: ") rcptCc

/-- `MessageComposer::writeCommonMessageBeginning`: the common header block
plus the `text/plain` body part (and, when attachments exist, the
`multipart/mixed` preamble and opening boundary). -/
def writeCommonMessageBeginning (env : Env) (c : MessageComposer) : Bytes :=
  bs "From: " ++ c.m_from.asMailHeader ++ crlf
  ++ recipientHeaders c.m_recipients
  ++ env.encodeHeaderField (bs "Subject: " ++ c.m_subject) ++ crlf
  ++ bs "Date: " ++ env.dateTimeToRfc2822 c.m_timestamp ++ crlf
  ++ bs "MIME-Version: 1.0" ++ crlf
  ++ bs "Message-ID: <" ++ optBytes c.m_messageId ++ bs ">" ++ crlf
  ++ writeHeaderWithMsgIds (bs "In-Reply-To") c.m_inReplyTo
  ++ writeHeaderWithMsgIds (bs "References") c.m_references
  ++ (if c.m_organization.isEmpty then []
      else env.encodeHeaderField (bs "Organization: " ++ c.m_organization) ++ crlf)
  ++ (if c.m_reportTrojitaVersions then env.userAgentVersioned
      else bs "User-Agent: Trojita" ++ crlf)
  ++ (if c.m_attachments.isEmpty then []
      else bs "Content-Type: multipart/mixed;" ++ crlf ++ bs "\tboundary=\""
        ++ optBytes c.m_mimeBoundary ++ bs "\"" ++ crlf
        ++ crlf ++ bs "This is a multipart/mixed message in MIME format." ++ crlf
        ++ crlf ++ bs "--" ++ optBytes c.m_mimeBoundary ++ crlf)
  ++ bs "Content-Type: text/plain; charset=utf-8; format=flowed" ++ crlf
  ++ bs "Content-Transfer-Encoding: quoted-printable" ++ crlf ++ crlf
  ++ env.quotedPrintableEncode (env.wrapFormatFlowed c.m_text)

/-- The `Content-Transfer-Encoding` line for an attachment. -/
def cteLine : ContentTransferEncoding → Bytes
  | ContentTransferEncoding.base64 => bs "Content-Transfer-Encoding: base64" ++ crlf
  | ContentTransferEncoding.sevenBit => bs "Content-Transfer-Encoding: 7bit" ++ crlf
  | ContentTransferEncoding.eightBit => bs "Content-Transfer-Encoding: 8bit" ++ crlf
  | ContentTransferEncoding.binary => bs "Content-Transfer-Encoding: binary" ++ crlf
  | ContentTransferEncoding.quotedPrintable =>
      bs "Content-Transfer-Encoding: quoted-printable" ++ crlf

/-- `MessageComposer::writeAttachmentHeader`: `none` models the failure
return (attachment neither locally available nor remotely referenceable);
the error message text is not modelled. -/
def writeAttachmentHeader (boundary : Bytes) (a : AttachmentItem) : Option Bytes :=
  if a.isAvailableLocally = false ∧ a.imapUrl.isEmpty then none
  else
    some (crlf ++ bs "--" ++ boundary ++ crlf
      ++ bs "Content-Type: " ++ a.mimeType ++ crlf
      ++ a.contentDispositionHeader
      ++ cteLine a.suggestedCTE
      ++ crlf)

/-- `MessageComposer::writeAttachmentBody`: `none` models the failure
returns (not available, or the raw-data source vanished).  The encoding
loop never runs for an empty source; for quoted-printable and the
pass-through encodings one iteration consumes everything; for Base64 the
data is consumed in 57-byte chunks. -/
def writeAttachmentBody (env : Env) (a : AttachmentItem) : Option Bytes :=
  if a.isAvailableLocally = false then none
  else
    match a.rawData with
    | none => none
    | some data =>
      some (match a.suggestedCTE with
        | ContentTransferEncoding.base64 => base64Lines data
        | ContentTransferEncoding.quotedPrintable =>
            if data.isEmpty then [] else env.quotedPrintableEncode data
        | _ => data)

/-- The attachment loop of `asRawMessage`: the bytes written and whether
every attachment was serialized successfully (on failure, the bytes
already written stay in the output stream). -/
def rawAttachments (env : Env) (boundary : Bytes) : List AttachmentItem → Bytes × Bool
  | [] => ([], true)
  | a :: rest =>
    match writeAttachmentHeader boundary a with
    | none => ([], false)
    | some hdr =>
      match writeAttachmentBody env a with
      | none => (hdr, false)
      | some body =>
        let (tail, ok) := rawAttachments env boundary rest
        (hdr ++ (body ++ tail), ok)

/-- The closing multipart boundary marker. -/
def closingBoundary (boundary : Bytes) : Bytes :=
  crlf ++ bs "--" ++ boundary ++ bs "--" ++ crlf

/-- The bytes-and-success part of `asRawMessage`, after the random tokens
have been ensured. -/
def rawMessageBody (env : Env) (c : MessageComposer) : Bytes × Bool :=
  let common := writeCommonMessageBeginning env c
  if c.m_attachments.isEmpty then (common, true)
  else
    let (ab, ok) := rawAttachments env (optBytes c.m_mimeBoundary) c.m_attachments
    (common ++ ab ++ (if ok then closingBoundary (optBytes c.m_mimeBoundary) else []), ok)

/-- `MessageComposer::asRawMessage`.  The composer is returned as well
because `ensureRandomStrings` mutates the (C++ `mutable`) token fields;
`uuid1`/`uuid2` are the fresh random tokens it would consume. -/
def asRawMessage (env : Env) (c : MessageComposer) (uuid1 uuid2 : Bytes) :
    MessageComposer × Bytes × Bool :=
  let c' := ensureRandomStrings c uuid1 uuid2
  (c', rawMessageBody env c')

/-! ## `MessageComposer::asCatenateData` -/

/-- `Imap::Mailbox::CatenatePair` kinds: `CATENATE_TEXT` / `CATENATE_URL`. -/
inductive FragKind
  | text
  | url
deriving DecidableEq

/-- One catenate fragment. -/
abbrev Frag := FragKind × Bytes

/-- Number of `CATENATE_URL` fragments in a fragment list. -/
def urlCount (l : List Frag) : Nat :=
  (l.filter (fun p => p.1 = FragKind.url)).length

/-- Resolve a fragment list into a byte stream: each `Text` fragment
contributes its own bytes, and the i-th `RemoteUrl` fragment is replaced by
the i-th entry of `bodies` (the bytes the server would substitute for the
referenced remote byte range). -/
def resolveWith : List Frag → List Bytes → Bytes
  | [], _ => []
  | (FragKind.text, b) :: rest, bodies => b ++ resolveWith rest bodies
  | (FragKind.url, _) :: rest, [] => resolveWith rest []
  | (FragKind.url, _) :: rest, b :: bodies => b ++ resolveWith rest bodies

/-- Append bytes to the payload of the final fragment (writing into an
`Append`-mode `QBuffer` over `target.back().second`). -/
def appendToBack : List Frag → Bytes → List Frag
  | [], x => [(FragKind.text, x)]
  | [(k, b)], x => [(k, b ++ x)]
  | p :: q :: rest, x => p :: appendToBack (q :: rest) x

/-- Start a fresh `Text` fragment when the current last fragment is not a
`Text` one (the `target.back().first != CATENATE_TEXT` check). -/
def ensureTextBack (l : List Frag) : List Frag :=
  match l.getLast? with
  | some p => if p.1 = FragKind.text then l else l ++ [(FragKind.text, [])]
  | none => l ++ [(FragKind.text, [])]

theorem urlCount_append (xs ys : List Frag) :
    urlCount (xs ++ ys) = urlCount xs + urlCount ys := by
  simp [urlCount, List.filter_append]

theorem urlCount_cons (p : Frag) (ps : List Frag) :
    urlCount (p :: ps) = (if p.1 = FragKind.url then 1 else 0) + urlCount ps := by
  simp only [urlCount, List.filter_cons]
  split <;> split <;> simp_all <;> omega

theorem resolveWith_split (xs ys : List Frag) (bs1 bs2 : List Bytes)
    (h : urlCount xs = bs1.length) :
    resolveWith (xs ++ ys) (bs1 ++ bs2) = resolveWith xs bs1 ++ resolveWith ys bs2 := by
  induction xs generalizing bs1 with
  | nil =>
    have : bs1 = [] := by
      simpa using (List.length_eq_zero.mp (by simpa [urlCount] using h.symm))
    subst this
    simp [resolveWith]
  | cons p ps ih =>
    rcases p with ⟨k, b⟩
    cases k with
    | text =>
      have h' : urlCount ps = bs1.length := by
        rw [urlCount_cons] at h
        simpa using h
      simp only [List.cons_append, resolveWith, List.append_eq, ih bs1 h', List.append_assoc]
    | url =>
      cases bs1 with
      | nil =>
        rw [urlCount_cons] at h
        simp at h
      | cons b0 bsr =>
        have h' : urlCount ps = bsr.length := by
          rw [urlCount_cons] at h
          simp at h
          omega
        simp only [List.cons_append, resolveWith, List.append_eq, ih bsr h', List.append_assoc]

theorem resolveWith_append_textfrag (l : List Frag) (bodies : List Bytes) (t : Bytes)
    (h : urlCount l = bodies.length) :
    resolveWith (l ++ [(FragKind.text, t)]) bodies = resolveWith l bodies ++ t := by
  have := resolveWith_split l [(FragKind.text, t)] bodies [] h
  simpa [resolveWith] using this

theorem resolveWith_append_urlfrag (l : List Frag) (bodies : List Bytes) (u b : Bytes)
    (h : urlCount l = bodies.length) :
    resolveWith (l ++ [(FragKind.url, u)]) (bodies ++ [b]) = resolveWith l bodies ++ b := by
  have := resolveWith_split l [(FragKind.url, u)] bodies [b] h
  simpa [resolveWith] using this

/-- A fragment list whose last fragment is a `Text` fragment. -/
def lastIsText (l : List Frag) : Prop :=
  ∃ t, l.getLast? = some (FragKind.text, t)

theorem appendToBack_ne_nil (l : List Frag) (x : Bytes) : appendToBack l x ≠ [] := by
  cases l with
  | nil => simp [appendToBack]
  | cons p ps =>
    cases ps <;> rcases p with ⟨k, b⟩ <;> simp [appendToBack]

theorem appendToBack_kinds (l : List Frag) (x : Bytes) (hne : l ≠ []) :
    (appendToBack l x).map Prod.fst = l.map Prod.fst := by
  induction l with
  | nil => exact absurd rfl hne
  | cons p ps ih =>
    rcases p with ⟨k, b⟩
    cases ps with
    | nil => simp [appendToBack]
    | cons q qs => simp [appendToBack, ih (by simp)]

theorem appendToBack_urlCount (l : List Frag) (x : Bytes) :
    urlCount (appendToBack l x) = urlCount l := by
  induction l with
  | nil => simp [appendToBack, urlCount_cons, urlCount]
  | cons p ps ih =>
    rcases p with ⟨k, b⟩
    cases ps with
    | nil => cases k <;> rfl
    | cons q qs =>
      have hstep : appendToBack ((k, b) :: q :: qs) x
          = (k, b) :: appendToBack (q :: qs) x := rfl
      rw [hstep, urlCount_cons, urlCount_cons, ih]

theorem appendToBack_lastIsText (l : List Frag) (x : Bytes) (h : lastIsText l) :
    lastIsText (appendToBack l x) := by
  induction l with
  | nil => exact ⟨x, by simp [appendToBack]⟩
  | cons p ps ih =>
    rcases p with ⟨k, b⟩
    cases ps with
    | nil =>
      rcases h with ⟨t, ht⟩
      have hkb : (k, b) = (FragKind.text, t) := by simpa using ht
      have hk : k = FragKind.text := congrArg Prod.fst hkb
      subst hk
      exact ⟨b ++ x, by simp [appendToBack]⟩
    | cons q qs =>
      have h' : lastIsText (q :: qs) := by
        rcases h with ⟨t, ht⟩
        exact ⟨t, by rwa [List.getLast?_cons_cons] at ht⟩
      rcases ih h' with ⟨t, ht⟩
      refine ⟨t, ?_⟩
      have hne := appendToBack_ne_nil (q :: qs) x
      rcases hq : appendToBack (q :: qs) x with _ | ⟨r, rs⟩
      · exact absurd hq hne
      · rw [hq] at ht
        simp only [appendToBack, hq]
        rwa [List.getLast?_cons_cons]

theorem appendToBack_resolve (l : List Frag) (bodies : List Bytes) (x : Bytes)
    (hlast : lastIsText l) (hcount : urlCount l = bodies.length) :
    resolveWith (appendToBack l x) bodies = resolveWith l bodies ++ x := by
  induction l generalizing bodies with
  | nil =>
    have : bodies = [] := by
      simpa using (List.length_eq_zero.mp (by simpa [urlCount] using hcount.symm))
    subst this
    simp [appendToBack, resolveWith]
  | cons p ps ih =>
    rcases p with ⟨k, b⟩
    cases ps with
    | nil =>
      rcases hlast with ⟨t, ht⟩
      have hkb : (k, b) = (FragKind.text, t) := by simpa using ht
      have hk : k = FragKind.text := congrArg Prod.fst hkb
      subst hk
      have : bodies = [] := by
        rw [urlCount_cons] at hcount
        simp at hcount
        simpa using (List.length_eq_zero.mp hcount.symm)
      subst this
      simp [appendToBack, resolveWith]
    | cons q qs =>
      have hlast' : lastIsText (q :: qs) := by
        rcases hlast with ⟨t, ht⟩
        exact ⟨t, by rwa [List.getLast?_cons_cons] at ht⟩
      have hstep : appendToBack ((k, b) :: q :: qs) x
          = (k, b) :: appendToBack (q :: qs) x := rfl
      cases k with
      | text =>
        have hcount' : urlCount (q :: qs) = bodies.length := by
          rw [urlCount_cons] at hcount
          simpa using hcount
        rw [hstep]
        simp only [resolveWith, List.append_eq, ih bodies hlast' hcount', List.append_assoc]
      | url =>
        cases bodies with
        | nil =>
          rw [urlCount_cons] at hcount
          simp at hcount
        | cons b0 bsr =>
          have hcount' : urlCount (q :: qs) = bsr.length := by
            rw [urlCount_cons] at hcount
            simp at hcount
            omega
          rw [hstep]
          simp only [resolveWith, List.append_eq, ih bsr hlast' hcount', List.append_assoc]

theorem ensureTextBack_ne_nil (l : List Frag) : ensureTextBack l ≠ [] := by
  unfold ensureTextBack
  cases h : l.getLast? with
  | none => dsimp only; simp
  | some p =>
    dsimp only
    split
    · intro hl
      rw [hl] at h
      simp at h
    · simp

theorem ensureTextBack_lastIsText (l : List Frag) : lastIsText (ensureTextBack l) := by
  unfold ensureTextBack
  cases h : l.getLast? with
  | none => exact ⟨[], by dsimp only; simp [List.getLast?_concat]⟩
  | some p =>
    dsimp only
    split
    · rcases p with ⟨k, b⟩
      rename_i hk
      have hk' : k = FragKind.text := hk
      subst hk'
      exact ⟨b, h⟩
    · exact ⟨[], by simp [List.getLast?_concat]⟩

theorem ensureTextBack_urlCount (l : List Frag) :
    urlCount (ensureTextBack l) = urlCount l := by
  unfold ensureTextBack
  cases h : l.getLast? with
  | none =>
    dsimp only
    rw [urlCount_append]
    exact Nat.add_zero _
  | some p =>
    dsimp only
    split
    · rfl
    · rw [urlCount_append]
      exact Nat.add_zero _

theorem ensureTextBack_resolve (l : List Frag) (bodies : List Bytes)
    (hcount : urlCount l = bodies.length) :
    resolveWith (ensureTextBack l) bodies = resolveWith l bodies := by
  unfold ensureTextBack
  cases h : l.getLast? with
  | none =>
    dsimp only
    simpa using resolveWith_append_textfrag l bodies [] hcount
  | some p =>
    dsimp only
    split
    · rfl
    · simpa using resolveWith_append_textfrag l bodies [] hcount

/-- The attachment loop of `asCatenateData`: before each attachment the
last fragment is made a `Text` one, the attachment header is flushed into
it, and the body is either appended there too (no remote reference) or
contributed as a fresh `CATENATE_URL` fragment. -/
def catAttachments (env : Env) (boundary : Bytes) :
    List Frag → List AttachmentItem → List Frag × Bool
  | frags, [] => (frags, true)
  | frags, a :: rest =>
    let frags1 := ensureTextBack frags
    match writeAttachmentHeader boundary a with
    | none => (frags1, false)
    | some hdr =>
      let frags2 := appendToBack frags1 hdr
      if a.imapUrl.isEmpty then
        match writeAttachmentBody env a with
        | none => (frags2, false)
        | some body => catAttachments env boundary (appendToBack frags2 body) rest
      else
        catAttachments env boundary (frags2 ++ [(FragKind.url, a.imapUrl)]) rest

/-- The fragments-and-success part of `asCatenateData`, after the random
tokens have been ensured. -/
def catenateBody (env : Env) (c : MessageComposer) : List Frag × Bool :=
  let first : List Frag := [(FragKind.text, writeCommonMessageBeginning env c)]
  if c.m_attachments.isEmpty then (first, true)
  else
    let (frags, ok) := catAttachments env (optBytes c.m_mimeBoundary) first c.m_attachments
    if ok then
      (appendToBack (ensureTextBack frags) (closingBoundary (optBytes c.m_mimeBoundary)), true)
    else (frags, false)

/-- `MessageComposer::asCatenateData`. -/
def asCatenateData (env : Env) (c : MessageComposer) (uuid1 uuid2 : Bytes) :
    MessageComposer × List Frag × Bool :=
  let c' := ensureRandomStrings c uuid1 uuid2
  (c', catenateBody env c')

/-- For each attachment with a non-empty remote reference, in order, the
body bytes `asRawMessage` would inline for it. -/
def urlBodies (env : Env) : List AttachmentItem → List Bytes
  | [] => []
  | a :: rest =>
    if a.imapUrl.isEmpty then urlBodies env rest
    else optBytes (writeAttachmentBody env a) :: urlBodies env rest

/-- Main induction for the catenate/raw refinement: processing the same
attachments through both loops keeps the resolved fragment bytes equal to
the raw output bytes. -/
theorem catAttachments_resolve (env : Env) (boundary : Bytes) (atts : List AttachmentItem) :
    ∀ (frags : List Frag) (bodies : List Bytes) (frags' : List Frag) (rawOut : Bytes),
      frags ≠ [] →
      urlCount frags = bodies.length →
      rawAttachments env boundary atts = (rawOut, true) →
      catAttachments env boundary frags atts = (frags', true) →
      resolveWith frags' (bodies ++ urlBodies env atts)
          = resolveWith frags bodies ++ rawOut
        ∧ frags' ≠ []
        ∧ urlCount frags' = (bodies ++ urlBodies env atts).length := by
  induction atts with
  | nil =>
    intro frags bodies frags' rawOut hne hcount hraw hcat
    have hro : rawOut = [] := by
      have := congrArg Prod.fst hraw
      simpa [rawAttachments] using this.symm
    have hfr : frags' = frags := by
      have := congrArg Prod.fst hcat
      simpa [catAttachments] using this.symm
    subst hro
    subst hfr
    simp only [urlBodies, List.append_nil]
    exact ⟨trivial, hne, hcount⟩
  | cons a rest ih =>
    intro frags bodies frags' rawOut hne hcount hraw hcat
    simp only [rawAttachments] at hraw
    simp only [catAttachments] at hcat
    rcases hhdr : writeAttachmentHeader boundary a with _ | hdr
    · rw [hhdr] at hraw
      simp at hraw
    rw [hhdr] at hraw
    rcases hbody : writeAttachmentBody env a with _ | body
    · rw [hbody] at hraw
      simp at hraw
    rw [hbody] at hraw
    rcases hrest : rawAttachments env boundary rest with ⟨tail, okRest⟩
    rw [hrest] at hraw
    simp only [Prod.mk.injEq] at hraw
    obtain ⟨hrawOut, hokRest⟩ := hraw
    subst hokRest
    -- facts about the fragment list after the header flush
    have h1ne : ensureTextBack frags ≠ [] := ensureTextBack_ne_nil frags
    have h1last : lastIsText (ensureTextBack frags) := ensureTextBack_lastIsText frags
    have h1count : urlCount (ensureTextBack frags) = bodies.length := by
      rw [ensureTextBack_urlCount]; exact hcount
    have h1res : resolveWith (ensureTextBack frags) bodies = resolveWith frags bodies :=
      ensureTextBack_resolve frags bodies hcount
    have h2ne : appendToBack (ensureTextBack frags) hdr ≠ [] :=
      appendToBack_ne_nil _ hdr
    have h2last : lastIsText (appendToBack (ensureTextBack frags) hdr) :=
      appendToBack_lastIsText _ hdr h1last
    have h2count : urlCount (appendToBack (ensureTextBack frags) hdr) = bodies.length := by
      rw [appendToBack_urlCount]; exact h1count
    have h2res : resolveWith (appendToBack (ensureTextBack frags) hdr) bodies
        = resolveWith frags bodies ++ hdr := by
      rw [appendToBack_resolve _ bodies hdr h1last h1count, h1res]
    by_cases hurl : a.imapUrl.isEmpty
    · -- inline attachment: the body joins the current Text fragment
      simp only [hhdr, hurl, hbody, if_true] at hcat
      have h3ne : appendToBack (appendToBack (ensureTextBack frags) hdr) body ≠ [] :=
        appendToBack_ne_nil _ body
      have h3last : lastIsText (appendToBack (appendToBack (ensureTextBack frags) hdr) body) :=
        appendToBack_lastIsText _ body h2last
      have h3count :
          urlCount (appendToBack (appendToBack (ensureTextBack frags) hdr) body)
            = bodies.length := by
        rw [appendToBack_urlCount]; exact h2count
      have h3res :
          resolveWith (appendToBack (appendToBack (ensureTextBack frags) hdr) body) bodies
            = resolveWith frags bodies ++ hdr ++ body := by
        rw [appendToBack_resolve _ bodies body h2last h2count, h2res]
      obtain ⟨hres, hne', hcount'⟩ :=
        ih (appendToBack (appendToBack (ensureTextBack frags) hdr) body) bodies frags' tail
          h3ne h3count hrest hcat
      have hub : urlBodies env (a :: rest) = urlBodies env rest := by
        rw [urlBodies, if_pos hurl]
      refine ⟨?_, hne', ?_⟩
      · rw [hub, hres, h3res, ← hrawOut]
        simp [List.append_assoc]
      · rw [hub, hcount']
    · -- remote attachment: the body becomes a RemoteUrl fragment
      simp only [hhdr, if_neg hurl] at hcat
      have h4ne : appendToBack (ensureTextBack frags) hdr ++ [(FragKind.url, a.imapUrl)] ≠ [] := by
        simp
      have h4count :
          urlCount (appendToBack (ensureTextBack frags) hdr ++ [(FragKind.url, a.imapUrl)])
            = (bodies ++ [body]).length := by
        rw [urlCount_append, h2count]
        simp [urlCount, List.filter]
      have h4res :
          resolveWith (appendToBack (ensureTextBack frags) hdr ++ [(FragKind.url, a.imapUrl)])
              (bodies ++ [body])
            = resolveWith frags bodies ++ hdr ++ body := by
        rw [resolveWith_append_urlfrag _ bodies a.imapUrl body h2count, h2res]
      obtain ⟨hres, hne', hcount'⟩ :=
        ih (appendToBack (ensureTextBack frags) hdr ++ [(FragKind.url, a.imapUrl)])
          (bodies ++ [body]) frags' tail h4ne h4count hrest hcat
      have hub : urlBodies env (a :: rest) = body :: urlBodies env rest := by
        rw [urlBodies, if_neg hurl, hbody]
        rfl
      refine ⟨?_, hne', ?_⟩
      · rw [hub, ← hrawOut]
        have hshift : bodies ++ body :: urlBodies env rest
            = (bodies ++ [body]) ++ urlBodies env rest := by
          simp
        rw [hshift, hres, h4res]
        simp [List.append_assoc]
      · rw [hub, hcount']
        simp

/-! ## Structural facts about the catenate fragment list -/

/-- The kind sequence of a fragment list. -/
def fragKinds (l : List Frag) : List FragKind := l.map Prod.fst

/-- The structural invariant maintained by the catenate loop: the fragment
list is non-empty, starts with a `Text` fragment, and never holds two
adjacent fragments of the same kind. -/
def fragWellFormed (l : List Frag) : Prop :=
  l ≠ [] ∧ (fragKinds l).head? = some FragKind.text ∧ List.Chain' Ne (fragKinds l)

theorem fragKinds_appendToBack (l : List Frag) (x : Bytes) (h : l ≠ []) :
    fragKinds (appendToBack l x) = fragKinds l :=
  appendToBack_kinds l x h

theorem ensureTextBack_cases (l : List Frag) :
    ensureTextBack l = l ∨
      ensureTextBack l = l ++ [(FragKind.text, [])]
        ∧ ∀ p ∈ l.getLast?, p.1 ≠ FragKind.text := by
  unfold ensureTextBack
  cases h : l.getLast? with
  | none => exact Or.inr ⟨rfl, by simp⟩
  | some p =>
    dsimp only
    split
    · exact Or.inl rfl
    · rename_i hk
      exact Or.inr ⟨rfl, by intro q hq; simp at hq; subst hq; exact hk⟩

theorem fragWellFormed_appendToBack (l : List Frag) (x : Bytes) (h : fragWellFormed l) :
    fragWellFormed (appendToBack l x) := by
  obtain ⟨hne, hhead, hchain⟩ := h
  refine ⟨appendToBack_ne_nil l x, ?_, ?_⟩
  · rwa [fragKinds_appendToBack l x hne]
  · rwa [fragKinds_appendToBack l x hne]

theorem fragWellFormed_ensureTextBack (l : List Frag) (h : fragWellFormed l) :
    fragWellFormed (ensureTextBack l) := by
  obtain ⟨hne, hhead, hchain⟩ := h
  rcases ensureTextBack_cases l with hc | ⟨hc, hlastk⟩
  · rw [hc]; exact ⟨hne, hhead, hchain⟩
  · rw [hc]
    refine ⟨by simp, ?_, ?_⟩
    · unfold fragKinds
      rw [List.map_append]
      rcases l with _ | ⟨p, ps⟩
      · exact absurd rfl hne
      · simpa [fragKinds] using hhead
    · unfold fragKinds
      rw [List.map_append]
      rw [List.chain'_append]
      refine ⟨hchain, by simp, ?_⟩
      intro x hx y hy
      have hy' : FragKind.text = y := by simpa using hy
      rw [← hy']
      rw [List.getLast?_map] at hx
      rcases hl : l.getLast? with _ | q
      · rw [hl] at hx; simp at hx
      · rw [hl] at hx
        have hx' : q.1 = x := by simpa using hx
        rw [← hx']
        exact hlastk q (by simp [hl])

theorem fragWellFormed_appendUrl (l : List Frag) (u : Bytes)
    (h : fragWellFormed l) (hlast : lastIsText l) :
    fragWellFormed (l ++ [(FragKind.url, u)]) := by
  obtain ⟨hne, hhead, hchain⟩ := h
  refine ⟨by simp, ?_, ?_⟩
  · unfold fragKinds
    rw [List.map_append]
    rcases l with _ | ⟨p, ps⟩
    · exact absurd rfl hne
    · simpa [fragKinds] using hhead
  · unfold fragKinds
    rw [List.map_append, List.chain'_append]
    refine ⟨hchain, by simp, ?_⟩
    intro x hx y hy
    have hy' : FragKind.url = y := by simpa using hy
    rw [← hy']
    rw [List.getLast?_map] at hx
    rcases hlast with ⟨t, ht⟩
    rw [ht] at hx
    have hx' : FragKind.text = x := by simpa using hx
    rw [← hx']
    simp

/-- The invariant is preserved by the whole catenate attachment loop,
whether it succeeds or fails. -/
theorem catAttachments_wellFormed (env : Env) (boundary : Bytes) (atts : List AttachmentItem) :
    ∀ (frags frags' : List Frag) (ok : Bool),
      catAttachments env boundary frags atts = (frags', ok) →
      fragWellFormed frags → fragWellFormed frags' := by
  induction atts with
  | nil =>
    intro frags frags' ok hcat hwf
    have : frags = frags' := by
      have := congrArg Prod.fst hcat
      simpa [catAttachments] using this
    rwa [← this]
  | cons a rest ih =>
    intro frags frags' ok hcat hwf
    have hwf1 : fragWellFormed (ensureTextBack frags) := fragWellFormed_ensureTextBack frags hwf
    have hlast1 : lastIsText (ensureTextBack frags) := ensureTextBack_lastIsText frags
    rcases hhdr : writeAttachmentHeader boundary a with _ | hdr
    · simp only [catAttachments, hhdr] at hcat
      have : ensureTextBack frags = frags' := congrArg Prod.fst hcat
      rwa [← this]
    · have hwf2 : fragWellFormed (appendToBack (ensureTextBack frags) hdr) :=
        fragWellFormed_appendToBack _ hdr hwf1
      have hlast2 : lastIsText (appendToBack (ensureTextBack frags) hdr) :=
        appendToBack_lastIsText _ hdr hlast1
      by_cases hurl : a.imapUrl.isEmpty
      · rcases hbody : writeAttachmentBody env a with _ | body
        · simp only [catAttachments, hhdr, hurl, if_true, hbody] at hcat
          have : appendToBack (ensureTextBack frags) hdr = frags' := congrArg Prod.fst hcat
          rwa [← this]
        · simp only [catAttachments, hhdr, hurl, if_true, hbody] at hcat
          exact ih _ frags' ok hcat (fragWellFormed_appendToBack _ body hwf2)
      · simp only [catAttachments, hhdr, if_neg hurl] at hcat
        exact ih _ frags' ok hcat (fragWellFormed_appendUrl _ a.imapUrl hwf2 hlast2)

/-! ## Facts about `ensureRandomStrings` -/

theorem ensureRandomStrings_attachments (c : MessageComposer) (u1 u2 : Bytes) :
    (ensureRandomStrings c u1 u2).m_attachments = c.m_attachments := by
  unfold ensureRandomStrings
  cases c.m_messageId <;> cases hb : c.m_mimeBoundary <;> simp [hb]

theorem ensureRandomStrings_isSome (c : MessageComposer) (u1 u2 : Bytes) :
    (ensureRandomStrings c u1 u2).m_messageId.isSome = true
      ∧ (ensureRandomStrings c u1 u2).m_mimeBoundary.isSome = true := by
  unfold ensureRandomStrings
  cases hm : c.m_messageId <;> cases hb : c.m_mimeBoundary <;> simp [hm, hb]

theorem ensureRandomStrings_idem (c : MessageComposer) (u1 u2 v1 v2 : Bytes) :
    ensureRandomStrings (ensureRandomStrings c u1 u2) v1 v2
      = ensureRandomStrings c u1 u2 := by
  unfold ensureRandomStrings
  cases hm : c.m_messageId <;> cases hb : c.m_mimeBoundary <;> simp [hm, hb]

/-- `MessageComposer::rawRecipientAddresses`: the SMTP mailbox of every
recipient, of every role. -/
def rawRecipientAddresses (c : MessageComposer) : List Bytes :=
  c.m_recipients.map (fun p => p.2.asSMTPMailbox)

/-! ## Top-level refinement between the two serializations -/

theorem rawMessageBody_empty (env : Env) (c : MessageComposer)
    (h : c.m_attachments = []) :
    rawMessageBody env c = (writeCommonMessageBeginning env c, true) := by
  unfold rawMessageBody
  rw [h]
  rfl

theorem catenateBody_empty (env : Env) (c : MessageComposer)
    (h : c.m_attachments = []) :
    catenateBody env c = ([(FragKind.text, writeCommonMessageBeginning env c)], true) := by
  unfold catenateBody
  rw [h]
  rfl

/-- The common-header fragment the catenate serialization starts from. -/
theorem initialFrag_wellFormed (b : Bytes) : fragWellFormed [(FragKind.text, b)] :=
  ⟨by simp, rfl, by simp [fragKinds]⟩

/-- Refinement at the level of the body serializers: when both succeed,
resolving the fragments against the inline bodies of the url-referenced
attachments reproduces the raw byte stream. -/
theorem catenateBody_resolves (env : Env) (c : MessageComposer)
    (hraw : (rawMessageBody env c).2 = true)
    (hcat : (catenateBody env c).2 = true) :
    resolveWith (catenateBody env c).1 (urlBodies env c.m_attachments)
      = (rawMessageBody env c).1 := by
  by_cases hemp : c.m_attachments.isEmpty
  · have hnil : c.m_attachments = [] := by simpa using hemp
    rw [rawMessageBody_empty env c hnil, catenateBody_empty env c hnil, hnil]
    simp [resolveWith, urlBodies]
  · rcases hra : rawAttachments env (optBytes c.m_mimeBoundary) c.m_attachments with ⟨ab, okr⟩
    rcases hca : catAttachments env (optBytes c.m_mimeBoundary)
        [(FragKind.text, writeCommonMessageBeginning env c)] c.m_attachments with ⟨frags, okc⟩
    have hrawmb : rawMessageBody env c
        = (writeCommonMessageBeginning env c ++ ab
            ++ (if okr then closingBoundary (optBytes c.m_mimeBoundary) else []), okr) := by
      unfold rawMessageBody
      rw [if_neg (by simpa using hemp), hra]
    have hokr : okr = true := by
      rw [hrawmb] at hraw
      exact hraw
    subst hokr
    have hcatb : catenateBody env c
        = (if okc
            then (appendToBack (ensureTextBack frags)
                (closingBoundary (optBytes c.m_mimeBoundary)), true)
            else (frags, false)) := by
      unfold catenateBody
      rw [if_neg (by simpa using hemp), hca]
    have hokc : okc = true := by
      by_contra hno
      rw [hcatb, if_neg hno] at hcat
      simp at hcat
    subst hokc
    rw [if_pos rfl] at hcatb
    obtain ⟨hres, hne, hcount⟩ :=
      catAttachments_resolve env (optBytes c.m_mimeBoundary) c.m_attachments
        [(FragKind.text, writeCommonMessageBeginning env c)] [] frags ab
        (by simp) (by simp [urlCount, List.filter]) hra hca
    simp only [List.nil_append] at hres hcount
    have hcount1 : urlCount (ensureTextBack frags) = (urlBodies env c.m_attachments).length := by
      rw [ensureTextBack_urlCount]; exact hcount
    rw [hcatb, hrawmb]
    simp only [if_pos rfl]
    rw [appendToBack_resolve _ _ _ (ensureTextBack_lastIsText frags) hcount1,
        ensureTextBack_resolve _ _ hcount, hres]
    simp [resolveWith, List.append_assoc]

/-- C1.  For every composer on which both serializations succeed, the
catenate fragments, with each RemoteUrl fragment replaced by the body
bytes `asRawMessage` would inline for the corresponding attachment,
concatenate to exactly the `asRawMessage` byte stream (both methods being
run with the same cached/fresh message-id and boundary tokens). -/
theorem asCatenateData_refines_asRawMessage (env : Env) (c : MessageComposer)
    (u1 u2 : Bytes)
    (hraw : (asRawMessage env c u1 u2).2.2 = true)
    (hcat : (asCatenateData env c u1 u2).2.2 = true) :
    resolveWith (asCatenateData env c u1 u2).2.1 (urlBodies env c.m_attachments)
      = (asRawMessage env c u1 u2).2.1 := by
  have hatt := ensureRandomStrings_attachments c u1 u2
  have := catenateBody_resolves env (ensureRandomStrings c u1 u2)
    (by exact hraw) (by exact hcat)
  rw [hatt] at this
  exact this

/-- C4.  The message-id and MIME boundary tokens are generated at most
once: any serialization call on the composer returned by a previous
serialization call ignores its fresh random inputs and reproduces the
previous call's output exactly, and after the first call both tokens are
present. -/
theorem randomTokens_cached_idempotent (env : Env) (c : MessageComposer)
    (u1 u2 v1 v2 w1 w2 : Bytes) :
    asRawMessage env (asRawMessage env c u1 u2).1 v1 v2 = asRawMessage env c u1 u2
    ∧ asCatenateData env (asCatenateData env c u1 u2).1 v1 v2 = asCatenateData env c u1 u2
    ∧ asCatenateData env (asRawMessage env c u1 u2).1 v1 v2
        = asCatenateData env (asRawMessage env c u1 u2).1 w1 w2
    ∧ asRawMessage env (asCatenateData env c u1 u2).1 v1 v2
        = asRawMessage env (asCatenateData env c u1 u2).1 w1 w2
    ∧ (asRawMessage env c u1 u2).1.m_messageId.isSome = true
    ∧ (asRawMessage env c u1 u2).1.m_mimeBoundary.isSome = true := by
  refine ⟨?_, ?_, ?_, ?_, ?_, ?_⟩ <;>
    simp [asRawMessage, asCatenateData, ensureRandomStrings_idem,
      ensureRandomStrings_isSome]

/-- C5.  Bcc recipients never appear in the rendered header block:
inserting a Bcc recipient anywhere leaves `writeCommonMessageBeginning`
byte-identical, while `rawRecipientAddresses` (used for the SMTP envelope)
lists the SMTP mailbox of every recipient of every role, the Bcc one
included. -/
theorem bcc_never_in_headers (env : Env) (c : MessageComposer)
    (pre post : List (RecipientKind × MailAddress)) (addr : MailAddress) :
    writeCommonMessageBeginning env
        { c with m_recipients := pre ++ (RecipientKind.addressBcc, addr) :: post }
      = writeCommonMessageBeginning env { c with m_recipients := pre ++ post }
    ∧ rawRecipientAddresses
        { c with m_recipients := pre ++ (RecipientKind.addressBcc, addr) :: post }
      = (pre ++ (RecipientKind.addressBcc, addr) :: post).map (fun p => p.2.asSMTPMailbox)
    ∧ addr.asSMTPMailbox ∈ rawRecipientAddresses
        { c with m_recipients := pre ++ (RecipientKind.addressBcc, addr) :: post } := by
  have hgroup : groupRecipients (pre ++ (RecipientKind.addressBcc, addr) :: post)
      = groupRecipients (pre ++ post) := by
    induction pre with
    | nil => simp [groupRecipients]
    | cons p ps ih =>
      rcases p with ⟨k, a⟩
      simp only [List.cons_append, groupRecipients]
      simp only [List.append_eq, ih]
  refine ⟨?_, rfl, ?_⟩
  · simp only [writeCommonMessageBeginning, recipientHeaders, hgroup]
  · simp [rawRecipientAddresses]

/-- C6.  For a Base64-encoded attachment body, `writeAttachmentBody`
consumes the data in chunks of exactly 57 bytes, emits each chunk's Base64
encoding followed by CRLF, and therefore every output line (excluding its
CRLF terminator) carries at most 76 characters. -/
theorem writeAttachmentBody_base64_wraps (env : Env) (a : AttachmentItem) (data : Bytes)
    (hcte : a.suggestedCTE = ContentTransferEncoding.base64)
    (havail : a.isAvailableLocally = true)
    (hdata : a.rawData = some data) :
    writeAttachmentBody env a = some (base64Lines data)
    ∧ base64Lines data
        = ((chunksOf57 data).map (fun ch => base64Encode ch ++ crlf)).flatten
    ∧ (∀ ch ∈ chunksOf57 data, ch.length ≤ 57)
    ∧ ∀ line ∈ splitCRLF (base64Lines data), line.length ≤ 76 := by
  refine ⟨?_, base64Lines_eq_chunks data, chunksOf57_short data, base64Lines_lineLength data⟩
  simp [writeAttachmentBody, havail, hdata, hcte]

/-- C7 (amended).  `writeHeaderWithMsgIds` emits nothing for an empty
message-id list; and provided each message-id is CR-free and short enough
that `" <id>"` fits after the header name on a 78-column line
(`id.length + headerName.length ≤ 74`), every output line (excluding its
CRLF terminator) carries at most 78 characters.  (Longer message-ids can
overflow a line: see the counterexample.) -/
theorem writeHeaderWithMsgIds_wraps (headerName : Bytes) (messageIds : List Bytes) :
    (messageIds = [] → writeHeaderWithMsgIds headerName messageIds = [])
    ∧ ((∀ x ∈ headerName, x ≠ 13) →
       (∀ msgid ∈ messageIds, msgid.length + headerName.length ≤ 74
          ∧ ∀ x ∈ msgid, x ≠ 13) →
       ∀ line ∈ splitCRLF (writeHeaderWithMsgIds headerName messageIds),
         line.length ≤ 78) := by
  constructor
  · intro h
    subst h
    rfl
  · intro hname hids
    cases messageIds with
    | nil =>
      intro line hline
      simp [writeHeaderWithMsgIds, splitCRLF] at hline
      simp [hline]
    | cons msgid0 rest =>
      have h0 := hids msgid0 (by simp)
      have hcur13 : ∀ x ∈ headerName ++ bs ":" ++ bs " <" ++ msgid0 ++ bs ">", x ≠ 13 := by
        intro x hx
        have hc : bs ":" = [58] := rfl
        have hsl : bs " <" = [32, 60] := rfl
        have hgt : bs ">" = [62] := rfl
        rcases List.mem_append.mp hx with hx | hx
        · rcases List.mem_append.mp hx with hx | hx
          · rcases List.mem_append.mp hx with hx | hx
            · rcases List.mem_append.mp hx with hx | hx
              · exact hname x hx
              · rw [hc] at hx; simp at hx; omega
            · rw [hsl] at hx; simp at hx; omega
          · exact h0.2 x hx
        · rw [hgt] at hx; simp at hx; omega
      have hlen : (headerName ++ bs ":" ++ bs " <" ++ msgid0 ++ bs ">").length
          = headerName.length + 1 + (msgid0.length + 3) := by
        have hc : (bs ":").length = 1 := rfl
        have hsl : (bs " <").length = 2 := rfl
        have hgt : (bs ">").length = 1 := rfl
        simp only [List.length_append, hc, hsl, hgt]
        omega
      have hrest : ∀ m ∈ rest, m.length ≤ 75 ∧ ∀ x ∈ m, x ≠ 13 := by
        intro m hm
        have := hids m (by simp [hm])
        exact ⟨by omega, this.2⟩
      have := msgIdsRest_lines rest (headerName.length + 1 + (msgid0.length + 3))
        (headerName ++ bs ":" ++ bs " <" ++ msgid0 ++ bs ">") hlen hcur13
        (by omega) hrest
      intro line hline
      exact this line hline

/-- C7 counterexample: a single 80-character message-id yields an
`In-Reply-To` header line of 95 characters, exceeding the 78-column limit
the claim asserts for every input. -/
theorem writeHeaderWithMsgIds_overflow :
    ∃ line ∈ splitCRLF (writeHeaderWithMsgIds (bs "In-Reply-To") [List.replicate 80 97]),
      78 < line.length := by decide

/-- Witness for C7: the amended theorem applied to a concrete empty list
and to a concrete three-id `References` header. -/
theorem writeHeaderWithMsgIds_wraps_witness :
    (writeHeaderWithMsgIds (bs "References") [] = [])
    ∧ ∀ line ∈ splitCRLF (writeHeaderWithMsgIds (bs "References")
        [bs "first@example.org", bs "second@example.org", bs "third@example.org"]),
        line.length ≤ 78 :=
  ⟨(writeHeaderWithMsgIds_wraps (bs "References") []).1 rfl,
   (writeHeaderWithMsgIds_wraps (bs "References")
      [bs "first@example.org", bs "second@example.org", bs "third@example.org"]).2
     (by decide) (by decide)⟩

theorem catenateBody_wellFormed (env : Env) (c : MessageComposer)
    (hok : (catenateBody env c).2 = true) :
    fragWellFormed (catenateBody env c).1
    ∧ (c.m_attachments = [] →
        (catenateBody env c).1 = [(FragKind.text, writeCommonMessageBeginning env c)]) := by
  by_cases hemp : c.m_attachments.isEmpty
  · have hnil : c.m_attachments = [] := by simpa using hemp
    rw [catenateBody_empty env c hnil]
    exact ⟨initialFrag_wellFormed _, fun _ => rfl⟩
  · have hnotnil : c.m_attachments ≠ [] := by simpa using hemp
    rcases hca : catAttachments env (optBytes c.m_mimeBoundary)
        [(FragKind.text, writeCommonMessageBeginning env c)] c.m_attachments with ⟨frags, okc⟩
    have hcatb : catenateBody env c
        = (if okc
            then (appendToBack (ensureTextBack frags)
                (closingBoundary (optBytes c.m_mimeBoundary)), true)
            else (frags, false)) := by
      unfold catenateBody
      rw [if_neg (by simpa using hemp), hca]
    have hokc : okc = true := by
      by_contra hno
      rw [hcatb, if_neg hno] at hok
      simp at hok
    subst hokc
    rw [if_pos rfl] at hcatb
    have hwf : fragWellFormed frags :=
      catAttachments_wellFormed env (optBytes c.m_mimeBoundary) c.m_attachments
        _ frags true hca (initialFrag_wellFormed _)
    refine ⟨?_, fun h => absurd h hnotnil⟩
    rw [hcatb]
    exact fragWellFormed_appendToBack _ _ (fragWellFormed_ensureTextBack frags hwf)

/-- C10.  Whenever `asCatenateData` succeeds, its fragment list is
non-empty, starts with a `Text` fragment (the common header block), never
holds two adjacent fragments of the same kind, and is exactly one `Text`
fragment when the attachment list is empty. -/
theorem asCatenateData_fragmentStructure (env : Env) (c : MessageComposer)
    (u1 u2 : Bytes)
    (hok : (asCatenateData env c u1 u2).2.2 = true) :
    (asCatenateData env c u1 u2).2.1 ≠ []
    ∧ (fragKinds (asCatenateData env c u1 u2).2.1).head? = some FragKind.text
    ∧ List.Chain' Ne (fragKinds (asCatenateData env c u1 u2).2.1)
    ∧ (c.m_attachments = [] →
        ∃ b, (asCatenateData env c u1 u2).2.1 = [(FragKind.text, b)]) := by
  have hatt := ensureRandomStrings_attachments c u1 u2
  have h := catenateBody_wellFormed env (ensureRandomStrings c u1 u2) (by exact hok)
  obtain ⟨⟨hne, hhead, hchain⟩, hemp⟩ := h
  refine ⟨hne, hhead, hchain, fun hnil => ?_⟩
  exact ⟨writeCommonMessageBeginning env (ensureRandomStrings c u1 u2),
    hemp (by rw [hatt, hnil])⟩

/-! ## Concrete demonstration values used by the claim witnesses -/

def demoAttInline : AttachmentItem :=
  { isAvailableLocally := true
    mimeType := bs "text/plain"
    contentDispositionHeader := bs "Content-Disposition: attachment; filename=a.txt\r\n"
    suggestedCTE := ContentTransferEncoding.binary
    rawData := some (bs "hello attachment bytes")
    imapUrl := []
    caption := bs "a.txt"
    contentDispositionMode := ContentDisposition.cdnAttachment }

def demoAttUrl : AttachmentItem :=
  { isAvailableLocally := true
    mimeType := bs "message/rfc822"
    contentDispositionHeader := bs "Content-Disposition: inline\r\n"
    suggestedCTE := ContentTransferEncoding.sevenBit
    rawData := some (bs "remote message bytes")
    imapUrl := bs "/INBOX;UIDVALIDITY=1/;UID=7"
    caption := bs "forwarded"
    contentDispositionMode := ContentDisposition.cdnInline }

def demoAttUnavailable : AttachmentItem :=
  { isAvailableLocally := false
    mimeType := bs "application/octet-stream"
    contentDispositionHeader := []
    suggestedCTE := ContentTransferEncoding.base64
    rawData := none
    imapUrl := []
    caption := bs "missing"
    contentDispositionMode := ContentDisposition.cdnAttachment }

def demoB64Att : AttachmentItem :=
  { isAvailableLocally := true
    mimeType := bs "application/octet-stream"
    contentDispositionHeader := bs "Content-Disposition: attachment\r\n"
    suggestedCTE := ContentTransferEncoding.base64
    rawData := some (List.replicate 100 65)
    imapUrl := []
    caption := bs "blob"
    contentDispositionMode := ContentDisposition.cdnAttachment }

def demoModel : ImapModel :=
  { mailboxExists := fun mb => mb == bs "INBOX"
    messageExists := fun mb _ uid => mb == bs "INBOX" && uid != 99
    msgItem := fun _ _ _ => demoAttUrl
    partItem := fun _ _ _ _ => demoAttInline
    fileItem := fun p => if p == bs "/tmp/ok" then demoAttInline else demoAttUnavailable }

def demoEnv : Env :=
  { encodeHeaderField := id
    dateTimeToRfc2822 := id
    userAgentVersioned := bs "User-Agent: Trojita/demo; demo\r\n"
    quotedPrintableEncode := id
    wrapFormatFlowed := id }

def demoAddr : MailAddress :=
  { asMailHeader := bs "A <a@x.com>"
    asSMTPMailbox := bs "<a@x.com>"
    host := bs "x.com" }

def demoComposer : MessageComposer :=
  { m_from := demoAddr
    m_recipients := [(RecipientKind.addressTo,
        { asMailHeader := bs "B <b@y.com>"
          asSMTPMailbox := bs "<b@y.com>"
          host := bs "y.com" })]
    m_subject := bs "Hi"
    m_organization := []
    m_inReplyTo := []
    m_references := []
    m_timestamp := bs "Mon, 1 Jan 2024 10:00:00 +0000"
    m_text := bs "hello"
    m_attachments := [demoAttInline, demoAttUrl]
    m_messageId := some (bs "mid@x.com")
    m_mimeBoundary := some (bs "trojita=_demo")
    m_shouldPreload := false
    m_reportTrojitaVersions := false
    m_model := demoModel }

/-- Witness for C1 at a concrete composer with one inline and one
url-referenced attachment. -/
theorem asCatenateData_refines_asRawMessage_witness :
    resolveWith (asCatenateData demoEnv demoComposer [] []).2.1
        (urlBodies demoEnv demoComposer.m_attachments)
      = (asRawMessage demoEnv demoComposer [] []).2.1 :=
  asCatenateData_refines_asRawMessage demoEnv demoComposer [] [] (by decide) (by decide)

/-- Witness for C6 at a concrete 100-byte Base64 attachment. -/
theorem writeAttachmentBody_base64_wraps_witness :
    writeAttachmentBody demoEnv demoB64Att = some (base64Lines (List.replicate 100 65))
    ∧ ∀ line ∈ splitCRLF (base64Lines (List.replicate 100 65)), line.length ≤ 76 :=
  ⟨(writeAttachmentBody_base64_wraps demoEnv demoB64Att (List.replicate 100 65)
      rfl rfl rfl).1,
   (writeAttachmentBody_base64_wraps demoEnv demoB64Att (List.replicate 100 65)
      rfl rfl rfl).2.2.2⟩

/-- Witness for C10 at the same concrete composer. -/
theorem asCatenateData_fragmentStructure_witness :
    (asCatenateData demoEnv demoComposer [] []).2.1 ≠ []
    ∧ (fragKinds (asCatenateData demoEnv demoComposer [] []).2.1).head?
        = some FragKind.text
    ∧ List.Chain' Ne (fragKinds (asCatenateData demoEnv demoComposer [] []).2.1)
    ∧ (demoComposer.m_attachments = [] →
        ∃ b, (asCatenateData demoEnv demoComposer [] []).2.1 = [(FragKind.text, b)]) :=
  asCatenateData_fragmentStructure demoEnv demoComposer [] [] (by decide)

/-! ## The binary drag-and-drop payloads (`QDataStream`, big-endian)

A `QDataStream` over a read-only `QBuffer` is modelled as the remaining
bytes plus a sticky status.  Reads past the end consume the rest of the
buffer, yield zero values and set `ReadPastEnd`; once the status is not
`Ok`, further reads yield zero values without consuming anything.
`QString` payloads are modelled as opaque byte sequences behind their
32-bit length field (the UTF-16 representation is never inspected by the
composer, only compared for mailbox lookup). -/

inductive StreamStatus
  | ok
  | readPastEnd
deriving DecidableEq

structure Stream where
  data : Bytes
  status : StreamStatus
deriving DecidableEq

def Stream.atEnd (s : Stream) : Bool := s.data.isEmpty

/-- Read `n` raw bytes. -/
def readBytesN (n : Nat) (s : Stream) : Bytes × Stream :=
  if s.status ≠ StreamStatus.ok then ([], s)
  else if n ≤ s.data.length then (s.data.take n, ⟨s.data.drop n, StreamStatus.ok⟩)
  else ([], ⟨[], StreamStatus.readPastEnd⟩)

/-- Read a big-endian `quint32`; zero on failure. -/
def readU32 (s : Stream) : Nat × Stream :=
  match readBytesN 4 s with
  | ([a, b, c, d], s1) => (((a * 256 + b) * 256 + c) * 256 + d, s1)
  | (_, s1) => (0, s1)

/-- Read a big-endian `qint32` (two's complement); zero on failure. -/
def readInt (s : Stream) : Int × Stream :=
  let (v, s1) := readU32 s
  (if v < 2147483648 then (v : Int) else (v : Int) - 4294967296, s1)

/-- Read a `QString` (32-bit byte count, `0xFFFFFFFF` meaning the null
string, then the raw contents). -/
def readQString (s : Stream) : Bytes × Stream :=
  let (n, s1) := readU32 s
  if s1.status ≠ StreamStatus.ok then ([], s1)
  else if n = 4294967295 then ([], s1)
  else readBytesN n s1

/-- Read a `QByteArray` (same wire shape as `QString` here). -/
def readQByteArray (s : Stream) : Bytes × Stream :=
  readQString s

/-- The element loop of `QList<uint>` deserialization: on any read error
the whole container is cleared. -/
def readU32ListLoop : Nat → Stream → List Nat → List Nat × Stream
  | 0, s, acc => (acc, s)
  | n + 1, s, acc =>
    let (v, s1) := readU32 s
    if s1.status = StreamStatus.ok then readU32ListLoop n s1 (acc ++ [v])
    else ([], s1)

/-- Read a `QList<uint>`: 32-bit count, then that many `quint32` values. -/
def readUIntList (s : Stream) : List Nat × Stream :=
  let (n, s1) := readU32 s
  if s1.status = StreamStatus.ok then readU32ListLoop n s1 []
  else ([], s1)

/-- The observer notifications issued around attachment-list mutations
(`beginInsertRows`/`endInsertRows`/`beginRemoveRows`/`endRemoveRows`). -/
inductive ModelEvent
  | beginInsert (first last : Int)
  | endInsert
  | beginRemove (first last : Int)
  | endRemove
deriving DecidableEq

/-- The outcome of one drag-and-drop decode: the (possibly updated)
composer, the stream as the decode left it, the boolean result and the
observer notifications emitted during the call. -/
structure DropResult where
  composer : MessageComposer
  stream : Stream
  ok : Bool
  events : List ModelEvent

/-- `MessageComposer::validateDropImapMessage` (pure checks; its stream
argument is only consulted for the status). -/
def validateDropImapMessage (m : ImapModel) (s : Stream) (mailbox : Bytes)
    (uidValidity : Nat) (uids : List Nat) : Bool :=
  (s.status == StreamStatus.ok) && m.mailboxExists mailbox
    && !uids.isEmpty && (uidValidity != 0)

/-- The fields read and checked by `MessageComposer::validateDropImapPart`
(which performs its own stream reads). -/
structure PartRead where
  ok : Bool
  mailbox : Bytes
  uidValidity : Nat
  uid : Nat
  trojitaPath : Bytes
  stream : Stream

/-- `MessageComposer::validateDropImapPart`. -/
def validateDropImapPart (m : ImapModel) (s : Stream) : PartRead :=
  let (mailbox, s1) := readQString s
  let (uidValidity, s2) := readU32 s1
  let (uid, s3) := readU32 s2
  let (trojitaPath, s4) := readQByteArray s3
  { ok := (s4.status == StreamStatus.ok) && m.mailboxExists mailbox
      && (uidValidity != 0) && (uid != 0) && !trojitaPath.isEmpty
    mailbox := mailbox
    uidValidity := uidValidity
    uid := uid
    trojitaPath := trojitaPath
    stream := s4 }

/-- The record loop of `dropAttachmentList`.  The tag values 0/1/2 stand
for `ATTACHMENT_IMAP_MESSAGE` / `ATTACHMENT_IMAP_PART` / `ATTACHMENT_FILE`
(modelled from the spec's three record kinds; the concrete numbering of
the missing `ComposerAttachments.h` enum is immaterial to the claims).
`none` models the early `return false` paths; constructed items are
accumulated in a scope-local list and never touch the composer. -/
def dropAttachmentListLoop (m : ImapModel) :
    Nat → Stream → List AttachmentItem → Stream × Option (List AttachmentItem)
  | 0, s, acc => (s, some acc)
  | n + 1, s, acc =>
    let (kind, s1) := readInt s
    if kind = 0 then
      let (mailbox, s2) := readQString s1
      let (uidValidity, s3) := readU32 s2
      let (uids, s4) := readUIntList s3
      if validateDropImapMessage m s4 mailbox uidValidity uids = false then (s4, none)
      else if uids.length ≠ 1 then (s4, none)
      else
        match mkImapMessageAttachment m mailbox uidValidity (uids.headD 0) with
        | none => (s4, none)
        | some item => dropAttachmentListLoop m n s4 (acc ++ [item])
    else if kind = 1 then
      let r := validateDropImapPart m s1
      if r.ok = false then (r.stream, none)
      else
        match mkImapPartAttachment m r.mailbox r.uidValidity r.uid r.trojitaPath with
        | none => (r.stream, none)
        | some item => dropAttachmentListLoop m n r.stream (acc ++ [item])
    else if kind = 2 then
      let (fileName, s2) := readQString s1
      dropAttachmentListLoop m n s2 (acc ++ [m.fileItem fileName])
    else (s1, none)

/-- `MessageComposer::dropAttachmentList`:  decode a dropped attachment
list.  All validation (including the `CHECK_STREAM_OK_AT_END` leftover and
status checks) happens before the single commit point that mutates
`m_attachments`. -/
def dropAttachmentList (c : MessageComposer) (s : Stream) : DropResult :=
  if s.atEnd then ⟨c, s, false, []⟩
  else
    let (num, s1) := readInt s
    if s1.status ≠ StreamStatus.ok then ⟨c, s1, false, []⟩
    else if num < 0 then ⟨c, s1, false, []⟩
    else
      match dropAttachmentListLoop c.m_model num.toNat s1 [] with
      | (s2, none) => ⟨c, s2, false, []⟩
      | (s2, some items) =>
        if !s2.atEnd then ⟨c, s2, false, []⟩
        else if s2.status ≠ StreamStatus.ok then ⟨c, s2, false, []⟩
        else
          ⟨{ c with m_attachments := c.m_attachments ++ items }, s2, true,
            [ModelEvent.beginInsert (c.m_attachments.length : Int)
                ((c.m_attachments.length : Int) + items.length - 1),
              ModelEvent.endInsert]⟩

/-- The construction loop of `dropImapMessage`: one inline-disposition
attachment per uid; `none` models the caught `UnknownMessageIndex`. -/
def constructMsgItems (m : ImapModel) (mailbox : Bytes) (uidValidity : Nat) :
    List Nat → Option (List AttachmentItem)
  | [] => some []
  | uid :: rest =>
    match mkImapMessageAttachment m mailbox uidValidity uid with
    | none => none
    | some item =>
      match constructMsgItems m mailbox uidValidity rest with
      | none => none
      | some items =>
        some ({ item with contentDispositionMode := ContentDisposition.cdnInline } :: items)

/-- `MessageComposer::dropImapMessage`: decode a dropped message list. -/
def dropImapMessage (c : MessageComposer) (s : Stream) : DropResult :=
  if s.atEnd then ⟨c, s, false, []⟩
  else
    let (mailbox, s1) := readQString s
    let (uidValidity, s2) := readU32 s1
    let (uids, s3) := readUIntList s2
    if validateDropImapMessage c.m_model s3 mailbox uidValidity uids = false then
      ⟨c, s3, false, []⟩
    else if !s3.atEnd then ⟨c, s3, false, []⟩
    else if s3.status ≠ StreamStatus.ok then ⟨c, s3, false, []⟩
    else
      match constructMsgItems c.m_model mailbox uidValidity uids with
      | none => ⟨c, s3, false, []⟩
      | some items =>
        ⟨{ c with m_attachments := c.m_attachments ++ items }, s3, true,
          [ModelEvent.beginInsert (c.m_attachments.length : Int)
              ((c.m_attachments.length : Int) + uids.length - 1),
            ModelEvent.endInsert]⟩

/-- `MessageComposer::dropImapPart`: decode a dropped message part. -/
def dropImapPart (c : MessageComposer) (s : Stream) : DropResult :=
  if s.atEnd then ⟨c, s, false, []⟩
  else
    let r := validateDropImapPart c.m_model s
    if r.ok = false then ⟨c, r.stream, false, []⟩
    else if !r.stream.atEnd then ⟨c, r.stream, false, []⟩
    else if r.stream.status ≠ StreamStatus.ok then ⟨c, r.stream, false, []⟩
    else
      match mkImapPartAttachment c.m_model r.mailbox r.uidValidity r.uid r.trojitaPath with
      | none => ⟨c, r.stream, false, []⟩
      | some item =>
        ⟨{ c with m_attachments := c.m_attachments ++ [item] }, r.stream, true,
          [ModelEvent.beginInsert (c.m_attachments.length : Int)
              (c.m_attachments.length : Int),
            ModelEvent.endInsert]⟩

/-- `MessageComposer::addFileAttachment`.  Mirrors the source exactly:
`beginInsertRows` is issued first; if the freshly constructed file
attachment is not locally available the function returns `false` without
inserting anything and without ever issuing `endInsertRows`. -/
def addFileAttachment (c : MessageComposer) (path : Bytes) :
    MessageComposer × Bool × List ModelEvent :=
  let beginEv := ModelEvent.beginInsert (c.m_attachments.length : Int)
    (c.m_attachments.length : Int)
  let attachment := c.m_model.fileItem path
  if attachment.isAvailableLocally = false then (c, false, [beginEv])
  else
    ({ c with m_attachments := c.m_attachments ++ [attachment] }, true,
      [beginEv, ModelEvent.endInsert])

/-! ## C2: malformed attachment-list payloads never produce partial state -/

/-- Successful runs of the record loop produce exactly one item per
requested record. -/
theorem dropAttachmentListLoop_length (m : ImapModel) :
    ∀ (n : Nat) (s s' : Stream) (acc items : List AttachmentItem),
      dropAttachmentListLoop m n s acc = (s', some items) →
      items.length = acc.length + n := by
  intro n
  induction n with
  | zero =>
    intro s s' acc items h
    have h2 := congrArg Prod.snd h
    simp only [dropAttachmentListLoop] at h2
    have : acc = items := by simpa using h2
    rw [← this]
    simp
  | succ k ih =>
    intro s s' acc items h
    rw [dropAttachmentListLoop] at h
    rcases hread : readInt s with ⟨kind, s1⟩
    rw [hread] at h
    dsimp only at h
    by_cases hk0 : kind = 0
    · rw [if_pos hk0] at h
      rcases h1 : readQString s1 with ⟨mailbox, s2⟩
      rcases h2 : readU32 s2 with ⟨uidValidity, s3⟩
      rcases h3 : readUIntList s3 with ⟨uids, s4⟩
      rw [h1] at h
      dsimp only at h
      rw [h2] at h
      dsimp only at h
      rw [h3] at h
      dsimp only at h
      split at h
      · simp at h
      · split at h
        · simp at h
        · rcases hmk : mkImapMessageAttachment m mailbox uidValidity (uids.headD 0)
            with _ | item
          · rw [hmk] at h
            simp at h
          · rw [hmk] at h
            dsimp only at h
            have := ih s4 s' (acc ++ [item]) items h
            simp at this
            omega
    · rw [if_neg hk0] at h
      by_cases hk1 : kind = 1
      · rw [if_pos hk1] at h
        split at h
        · simp at h
        · rcases hmk : mkImapPartAttachment m (validateDropImapPart m s1).mailbox
              (validateDropImapPart m s1).uidValidity (validateDropImapPart m s1).uid
              (validateDropImapPart m s1).trojitaPath with _ | item
          · rw [hmk] at h
            simp at h
          · rw [hmk] at h
            dsimp only at h
            have := ih (validateDropImapPart m s1).stream s' (acc ++ [item]) items h
            simp at this
            omega
      · rw [if_neg hk1] at h
        by_cases hk2 : kind = 2
        · rw [if_pos hk2] at h
          rcases h1 : readQString s1 with ⟨fileName, s2⟩
          rw [h1] at h
          dsimp only at h
          have := ih s2 s' (acc ++ [m.fileItem fileName]) items h
          simp at this
          omega
        · rw [if_neg hk2] at h
          simp at h

/-- The record loop rejects a first record carrying an unknown kind tag. -/
theorem dropAttachmentListLoop_badKind (m : ImapModel) (n : Nat) (s : Stream)
    (acc : List AttachmentItem)
    (hk0 : (readInt s).1 ≠ 0) (hk1 : (readInt s).1 ≠ 1) (hk2 : (readInt s).1 ≠ 2) :
    (dropAttachmentListLoop m (n + 1) s acc).2 = none := by
  rw [dropAttachmentListLoop]
  rcases hr : readInt s with ⟨kind, s1⟩
  rw [hr] at hk0 hk1 hk2
  dsimp only
  rw [if_neg hk0, if_neg hk1, if_neg hk2]

/-- C2.  `dropAttachmentList` commits nothing on any failing path (the
composer is returned untouched, with no notifications), it fails on an
already-exhausted stream, on a negative declared count and on an unknown
first record-kind tag, and success requires the stream to be fully
consumed with no read error, appending exactly the declared number of
freshly decoded records in one batch. -/
theorem dropAttachmentList_no_partial_state (c : MessageComposer) (s : Stream) :
    ((dropAttachmentList c s).ok = false →
        (dropAttachmentList c s).composer = c ∧ (dropAttachmentList c s).events = [])
    ∧ (s.atEnd = true → (dropAttachmentList c s).ok = false)
    ∧ ((readInt s).1 < 0 → (dropAttachmentList c s).ok = false)
    ∧ (0 < (readInt s).1 →
        (readInt (readInt s).2).1 ≠ 0 → (readInt (readInt s).2).1 ≠ 1 →
        (readInt (readInt s).2).1 ≠ 2 → (dropAttachmentList c s).ok = false)
    ∧ ((dropAttachmentList c s).ok = true →
        (dropAttachmentList c s).stream.atEnd = true
        ∧ (dropAttachmentList c s).stream.status = StreamStatus.ok
        ∧ ∃ items : List AttachmentItem,
            (dropAttachmentList c s).composer.m_attachments = c.m_attachments ++ items
            ∧ ((items.length : Int) = (readInt s).1)) := by
  unfold dropAttachmentList
  by_cases hend : s.atEnd
  · rw [if_pos hend]
    exact ⟨fun _ => ⟨rfl, rfl⟩, fun _ => rfl, fun _ => rfl, fun _ _ _ _ => rfl,
      fun h => by simp at h⟩
  · rw [if_neg hend]
    rcases hread : readInt s with ⟨num, s1⟩
    dsimp only
    by_cases hst : s1.status ≠ StreamStatus.ok
    · rw [if_pos hst]
      exact ⟨fun _ => ⟨rfl, rfl⟩, fun h => absurd h (by simpa using hend),
        fun _ => rfl, fun _ _ _ _ => rfl, fun h => by simp at h⟩
    · rw [if_neg hst]
      by_cases hneg : num < 0
      · rw [if_pos hneg]
        exact ⟨fun _ => ⟨rfl, rfl⟩, fun h => absurd h (by simpa using hend),
          fun _ => rfl, fun _ _ _ _ => rfl, fun h => by simp at h⟩
      · rw [if_neg hneg]
        rcases hloop : dropAttachmentListLoop c.m_model num.toNat s1 [] with ⟨s2, res⟩
        cases res with
        | none =>
          dsimp only
          exact ⟨fun _ => ⟨rfl, rfl⟩, fun h => absurd h (by simpa using hend),
            fun h => absurd h hneg, fun _ _ _ _ => rfl, fun h => by simp at h⟩
        | some items =>
          dsimp only
          have hnokind : ∀ hpos : 0 < num, (readInt s1).1 ≠ 0 → (readInt s1).1 ≠ 1 →
              (readInt s1).1 ≠ 2 → False := by
            intro hpos hk0 hk1 hk2
            have hsucc : num.toNat = (num.toNat - 1) + 1 := by omega
            rw [hsucc] at hloop
            have := dropAttachmentListLoop_badKind c.m_model (num.toNat - 1) s1 [] hk0 hk1 hk2
            rw [hloop] at this
            simp at this
          by_cases hend2 : !s2.atEnd
          · rw [if_pos hend2]
            exact ⟨fun _ => ⟨rfl, rfl⟩, fun h => absurd h (by simpa using hend),
              fun h => absurd h hneg,
              fun hpos hk0 hk1 hk2 => absurd (hnokind hpos hk0 hk1 hk2) not_false,
              fun h => by simp at h⟩
          · rw [if_neg hend2]
            by_cases hst2 : s2.status ≠ StreamStatus.ok
            · rw [if_pos hst2]
              exact ⟨fun _ => ⟨rfl, rfl⟩, fun h => absurd h (by simpa using hend),
                fun h => absurd h hneg,
                fun hpos hk0 hk1 hk2 => absurd (hnokind hpos hk0 hk1 hk2) not_false,
                fun h => by simp at h⟩
            · rw [if_neg hst2]
              refine ⟨fun h => by simp at h, fun h => absurd h (by simpa using hend),
                fun h => absurd h hneg,
                fun hpos hk0 hk1 hk2 => absurd (hnokind hpos hk0 hk1 hk2) not_false,
                fun _ => ?_⟩
              refine ⟨by simpa using hend2, by simpa using hst2, items, by simp, ?_⟩
              have hlen := dropAttachmentListLoop_length c.m_model num.toNat s1 s2 [] items hloop
              simp at hlen
              omega

/-! ## Well-formed drag-and-drop payload encoders (the writing side of the
wire format, used to state C8) -/

/-- Big-endian 32-bit encoding. -/
def u32be (n : Nat) : Bytes :=
  [n / 16777216 % 256, n / 65536 % 256, n / 256 % 256, n % 256]

/-- A serialized non-null `QString` (32-bit byte count plus contents). -/
def encodeQString (str : Bytes) : Bytes := u32be str.length ++ str

/-- A serialized `QList<uint>`. -/
def encodeUIntList (l : List Nat) : Bytes := u32be l.length ++ (l.map u32be).flatten

/-- The `xTrojitaMessageList` payload: mailbox, uidValidity, uid list. -/
def msgListPayload (mailbox : Bytes) (uidValidity : Nat) (uids : List Nat) : Bytes :=
  encodeQString mailbox ++ u32be uidValidity ++ encodeUIntList uids

/-- An `xTrojitaAttachmentList` payload holding one well-formed
`ATTACHMENT_IMAP_MESSAGE` record. -/
def attachmentListMsgPayload (mailbox : Bytes) (uidValidity : Nat) (uid : Nat) : Bytes :=
  u32be 1 ++ u32be 0 ++ encodeQString mailbox ++ u32be uidValidity ++ encodeUIntList [uid]

theorem readBytesN_exact (content rest : Bytes) :
    readBytesN content.length ⟨content ++ rest, StreamStatus.ok⟩
      = (content, ⟨rest, StreamStatus.ok⟩) := by
  unfold readBytesN
  rw [if_neg (by simp), if_pos (by simp [List.length_append])]
  rw [List.take_left, List.drop_left]

theorem readU32_u32be (n : Nat) (h : n < 4294967296) (rest : Bytes) :
    readU32 ⟨u32be n ++ rest, StreamStatus.ok⟩ = (n, ⟨rest, StreamStatus.ok⟩) := by
  have hx := readBytesN_exact (u32be n) rest
  have hlen : (u32be n).length = 4 := rfl
  rw [hlen] at hx
  unfold readU32
  rw [hx]
  show (((n / 16777216 % 256 * 256 + n / 65536 % 256) * 256 + n / 256 % 256) * 256
      + n % 256, (⟨rest, StreamStatus.ok⟩ : Stream)) = _
  simp only [Prod.mk.injEq]
  exact ⟨by omega, trivial⟩

theorem readInt_u32be (n : Nat) (h : n < 2147483648) (rest : Bytes) :
    readInt ⟨u32be n ++ rest, StreamStatus.ok⟩ = ((n : Int), ⟨rest, StreamStatus.ok⟩) := by
  unfold readInt
  rw [readU32_u32be n (by omega) rest]
  simp [h]

theorem readQString_enc (str rest : Bytes) (h : str.length < 4294967295) :
    readQString ⟨encodeQString str ++ rest, StreamStatus.ok⟩
      = (str, ⟨rest, StreamStatus.ok⟩) := by
  unfold readQString encodeQString
  rw [List.append_assoc, readU32_u32be str.length (by omega) (str ++ rest)]
  dsimp only
  rw [if_neg (by simp), if_neg (by omega)]
  exact readBytesN_exact str rest

theorem readU32ListLoop_enc (l : List Nat) :
    ∀ (acc : List Nat) (rest : Bytes), (∀ u ∈ l, u < 4294967296) →
      readU32ListLoop l.length ⟨(l.map u32be).flatten ++ rest, StreamStatus.ok⟩ acc
        = (acc ++ l, ⟨rest, StreamStatus.ok⟩) := by
  induction l with
  | nil =>
    intro acc rest _
    simp [readU32ListLoop]
  | cons u us ih =>
    intro acc rest hu
    have hstep : (List.map u32be (u :: us)).flatten ++ rest
        = u32be u ++ ((List.map u32be us).flatten ++ rest) := by
      simp
    rw [List.length_cons, hstep]
    rw [readU32ListLoop]
    rw [readU32_u32be u (hu u (by simp)) _]
    dsimp only
    rw [if_pos rfl]
    rw [ih (acc ++ [u]) rest (fun v hv => hu v (by simp [hv]))]
    simp

theorem readUIntList_enc (l : List Nat) (rest : Bytes)
    (hlen : l.length < 4294967296) (hu : ∀ u ∈ l, u < 4294967296) :
    readUIntList ⟨encodeUIntList l ++ rest, StreamStatus.ok⟩
      = (l, ⟨rest, StreamStatus.ok⟩) := by
  unfold readUIntList encodeUIntList
  rw [List.append_assoc, readU32_u32be l.length hlen _]
  dsimp only
  rw [if_pos rfl]
  have := readU32ListLoop_enc l [] rest hu
  rw [this]
  simp

/-- Constructing one attachment per uid fails (with the caught
"unknown message index" condition) as soon as any referenced message is
missing from the live mailbox. -/
theorem constructMsgItems_missing (m : ImapModel) (mailbox : Bytes) (uidValidity : Nat)
    (uids : List Nat) (uid : Nat) (hmem : uid ∈ uids)
    (hmiss : m.messageExists mailbox uidValidity uid = false) :
    constructMsgItems m mailbox uidValidity uids = none := by
  induction uids with
  | nil => simp at hmem
  | cons u us ih =>
    rw [constructMsgItems]
    rcases List.mem_cons.mp hmem with h | h
    · subst h
      rw [show mkImapMessageAttachment m mailbox uidValidity uid = none from by
        simp [mkImapMessageAttachment, hmiss]]
    · rcases hmk : mkImapMessageAttachment m mailbox uidValidity u with _ | item
      · rfl
      · rw [ih h]

/-- C8.  A well-formed drag-and-drop payload that references a remote
message no longer present in the live mailbox makes the decode fail with
`false`, the composer untouched and no notification emitted — the
"unknown message index" condition raised during attachment construction
never propagates past the decode boundary.  Shown both for a message-list
payload (`dropImapMessage`) and for an attachment-list payload holding the
corresponding `ImapMessage` record (`dropAttachmentList`). -/
theorem unknownMessageIndex_confined (c : MessageComposer) (mailbox : Bytes)
    (uidValidity : Nat) (uids : List Nat) (uid : Nat)
    (hmb : c.m_model.mailboxExists mailbox = true)
    (hmlen : mailbox.length < 4294967295)
    (hne : uids ≠ [])
    (huv : uidValidity ≠ 0) (huv32 : uidValidity < 4294967296)
    (hcount : uids.length < 4294967296)
    (hu32 : ∀ u ∈ uids, u < 4294967296)
    (hmem : uid ∈ uids)
    (hmiss : c.m_model.messageExists mailbox uidValidity uid = false) :
    dropImapMessage c ⟨msgListPayload mailbox uidValidity uids, StreamStatus.ok⟩
      = ⟨c, ⟨[], StreamStatus.ok⟩, false, []⟩
    ∧ (uids = [uid] →
        dropAttachmentList c ⟨attachmentListMsgPayload mailbox uidValidity uid, StreamStatus.ok⟩
          = ⟨c, ⟨[], StreamStatus.ok⟩, false, []⟩) := by
  have hvalid : validateDropImapMessage c.m_model ⟨[], StreamStatus.ok⟩ mailbox uidValidity uids
      = true := by
    simp [validateDropImapMessage, hmb, huv, hne]
  constructor
  · have hp : (⟨msgListPayload mailbox uidValidity uids, StreamStatus.ok⟩ : Stream)
        = ⟨encodeQString mailbox
            ++ (u32be uidValidity ++ (encodeUIntList uids ++ [])), StreamStatus.ok⟩ := by
      simp [msgListPayload, List.append_assoc]
    unfold dropImapMessage
    rw [hp]
    rw [if_neg (by simp [Stream.atEnd, encodeQString, u32be])]
    rw [readQString_enc mailbox _ hmlen]
    dsimp only
    rw [readU32_u32be uidValidity huv32 _]
    dsimp only
    rw [readUIntList_enc uids [] hcount hu32]
    dsimp only
    rw [if_neg (by rw [hvalid]; simp)]
    rw [if_neg (by simp [Stream.atEnd])]
    rw [if_neg (by simp)]
    rw [constructMsgItems_missing c.m_model mailbox uidValidity uids uid hmem hmiss]
  · intro huids
    have hu : uid < 4294967296 := hu32 uid hmem
    have hp : (⟨attachmentListMsgPayload mailbox uidValidity uid, StreamStatus.ok⟩ : Stream)
        = ⟨u32be 1 ++ (u32be 0 ++ (encodeQString mailbox
            ++ (u32be uidValidity ++ (encodeUIntList [uid] ++ [])))), StreamStatus.ok⟩ := by
      simp [attachmentListMsgPayload, List.append_assoc]
    have hloop : dropAttachmentListLoop c.m_model 1
        ⟨u32be 0 ++ (encodeQString mailbox
          ++ (u32be uidValidity ++ (encodeUIntList [uid] ++ []))), StreamStatus.ok⟩ []
        = (⟨[], StreamStatus.ok⟩, none) := by
      have h01 : (1 : Nat) = 0 + 1 := rfl
      rw [h01, dropAttachmentListLoop]
      rw [readInt_u32be 0 (by omega) _]
      dsimp only
      simp only [Nat.cast_zero]
      rw [if_pos trivial]
      rw [readQString_enc mailbox _ hmlen]
      dsimp only
      rw [readU32_u32be uidValidity huv32 _]
      dsimp only
      rw [readUIntList_enc [uid] [] (by simp) (by simpa using hu)]
      dsimp only
      have hvalid1 : validateDropImapMessage c.m_model ⟨[], StreamStatus.ok⟩ mailbox uidValidity
          [uid] = true := by
        simp [validateDropImapMessage, hmb, huv]
      rw [if_neg (by rw [hvalid1]; simp)]
      rw [if_neg (by simp)]
      rw [show mkImapMessageAttachment c.m_model mailbox uidValidity ([uid].headD 0) = none
        from by simp [mkImapMessageAttachment, hmiss]]
    unfold dropAttachmentList
    rw [hp]
    rw [if_neg (by simp [Stream.atEnd, u32be])]
    rw [readInt_u32be 1 (by omega) _]
    dsimp only
    rw [if_neg (by simp)]
    rw [if_neg (by omega)]
    rw [show ((1 : Nat) : Int).toNat = 1 from rfl, hloop]

/-- C3 (code-bug demonstration).  On the failure path of
`addFileAttachment` — the constructed file attachment not being locally
available — the source has already issued `beginInsertRows` but returns
without performing any insertion and without ever issuing the matching
`endInsertRows`, so an observer is left inside an unclosed
"rows about to be inserted" bracket. -/
theorem addFileAttachment_unbalanced_notification (c : MessageComposer) (path : Bytes)
    (h : (c.m_model.fileItem path).isAvailableLocally = false) :
    (addFileAttachment c path).2.2
        = [ModelEvent.beginInsert (c.m_attachments.length : Int)
            (c.m_attachments.length : Int)]
    ∧ ModelEvent.endInsert ∉ (addFileAttachment c path).2.2
    ∧ (addFileAttachment c path).2.1 = false
    ∧ (addFileAttachment c path).1 = c := by
  unfold addFileAttachment
  rw [if_pos h]
  exact ⟨rfl, by simp, rfl, rfl⟩

/-- Witness for C3: a concrete composer and a path whose file attachment
is not locally readable. -/
theorem addFileAttachment_unbalanced_notification_witness :
    (addFileAttachment demoComposer (bs "/none")).2.2
        = [ModelEvent.beginInsert (demoComposer.m_attachments.length : Int)
            (demoComposer.m_attachments.length : Int)]
    ∧ ModelEvent.endInsert ∉ (addFileAttachment demoComposer (bs "/none")).2.2
    ∧ (addFileAttachment demoComposer (bs "/none")).2.1 = false
    ∧ (addFileAttachment demoComposer (bs "/none")).1 = demoComposer :=
  addFileAttachment_unbalanced_notification demoComposer (bs "/none") (by decide)

/-- C9.  `addFileAttachment` returns `false` and leaves the composer
exactly unchanged when the constructed file attachment is not locally
readable, and returns `true` appending exactly that one item at the end
when it is. -/
theorem addFileAttachment_list_semantics (c : MessageComposer) (path : Bytes) :
    ((c.m_model.fileItem path).isAvailableLocally = false →
        (addFileAttachment c path).2.1 = false ∧ (addFileAttachment c path).1 = c)
    ∧ ((c.m_model.fileItem path).isAvailableLocally = true →
        (addFileAttachment c path).2.1 = true
        ∧ (addFileAttachment c path).1.m_attachments
            = c.m_attachments ++ [c.m_model.fileItem path]) := by
  unfold addFileAttachment
  constructor
  · intro h
    rw [if_pos h]
    exact ⟨rfl, rfl⟩
  · intro h
    rw [if_neg (by simp [h])]
    exact ⟨rfl, rfl⟩

/-- Witness for C9: a concrete unreadable path and a concrete readable
one. -/
theorem addFileAttachment_list_semantics_witness :
    ((addFileAttachment demoComposer (bs "/none")).2.1 = false
      ∧ (addFileAttachment demoComposer (bs "/none")).1 = demoComposer)
    ∧ ((addFileAttachment demoComposer (bs "/tmp/ok")).2.1 = true
      ∧ (addFileAttachment demoComposer (bs "/tmp/ok")).1.m_attachments
          = demoComposer.m_attachments
            ++ [demoComposer.m_model.fileItem (bs "/tmp/ok")]) :=
  ⟨(addFileAttachment_list_semantics demoComposer (bs "/none")).1 (by decide),
   (addFileAttachment_list_semantics demoComposer (bs "/tmp/ok")).2 (by decide)⟩

/-- Witness for C2: a payload declaring three records but containing none
is rejected with the attachment list untouched. -/
theorem dropAttachmentList_no_partial_state_witness :
    (dropAttachmentList demoComposer ⟨u32be 3, StreamStatus.ok⟩).ok = false
    ∧ (dropAttachmentList demoComposer ⟨u32be 3, StreamStatus.ok⟩).composer
        = demoComposer
    ∧ (dropAttachmentList demoComposer ⟨u32be 3, StreamStatus.ok⟩).events = [] :=
  ⟨by decide,
   ((dropAttachmentList_no_partial_state demoComposer ⟨u32be 3, StreamStatus.ok⟩).1
      (by decide)).1,
   ((dropAttachmentList_no_partial_state demoComposer ⟨u32be 3, StreamStatus.ok⟩).1
      (by decide)).2⟩

/-- Witness for C8: a well-formed payload for `INBOX` uid 99, which the
demo model reports as no longer present. -/
theorem unknownMessageIndex_confined_witness :
    dropImapMessage demoComposer ⟨msgListPayload (bs "INBOX") 1 [99], StreamStatus.ok⟩
      = ⟨demoComposer, ⟨[], StreamStatus.ok⟩, false, []⟩
    ∧ dropAttachmentList demoComposer
        ⟨attachmentListMsgPayload (bs "INBOX") 1 99, StreamStatus.ok⟩
      = ⟨demoComposer, ⟨[], StreamStatus.ok⟩, false, []⟩ :=
  ⟨(unknownMessageIndex_confined demoComposer (bs "INBOX") 1 [99] 99
      (by decide) (by decide) (by decide) (by decide) (by decide) (by decide)
      (by decide) (by decide) (by decide)).1,
   (unknownMessageIndex_confined demoComposer (bs "INBOX") 1 [99] 99
      (by decide) (by decide) (by decide) (by decide) (by decide) (by decide)
      (by decide) (by decide) (by decide)).2 rfl⟩

end Trojita
